import Mathlib

/-!
Verification of the plaude room/signaling server and client negotiation logic.

Server side (`src/server.js`): the in-memory room registry (`rooms`), the
media-ready tracker (`userMediaReadyTracker`), and the socket event handlers
(`join-room`, `get-room-users`, `send-message`, `leave-room`,
`user-media-ready`, `initiate-connection`, `webrtc-offer`, `webrtc-answer`,
`webrtc-ice-candidate`, `webrtc-renegotiate`, `disconnect`) are embedded as
pure functions from a `ServerState` and the message fields to a new state and
a list of outbound events.  JavaScript truthiness checks on string fields
(`!roomId || typeof roomId !== 'string'`) are modelled as emptiness tests,
and `socket.rooms` (the set of Socket.IO rooms the connection has joined,
excluding the connection's own id room) is carried explicitly in the state.

Client side: the WebRTC signaling handlers of `src/unnamed/part_000`
(`initializeWebRTC`) and `src/src/lib/webrtc.ts`, the initiator tie-break of
`src/src/components/VideoRoom.tsx`, and the stream heartbeat
(`startStreamHeartbeat`) are embedded over an explicit model of the native
peer-connection object (signaling state, local/remote description, applied
ICE candidates), per the browser API contract the code relies on.
-/

/-- A room member, `{ id: socket.id, name: userName }` in `server.js`. -/
structure User where
  id : String
  name : String
deriving Repr, DecidableEq

/-- The room table `rooms`: an association list from room id to the room's
`users` array (JS object keys are unique; uniqueness is part of `RegInv`). -/
abbrev RoomsT := List (String × List User)

/-- `socket.rooms` per connection: association list, connection id to the set
of Socket.IO rooms it has joined (the connection's own id room is omitted). -/
abbrev SockT := List (String × List String)

/-- `userMediaReadyTracker` keys, strings of the form `roomId-socketId`. -/
abbrev TrackT := List String

/-- Chat attachment as validated by the `send-message` handler. -/
structure Attachment where
  aid : String
  name : String
  typ : String
  data : String
  size : Nat
deriving Repr, DecidableEq

/-- Outbound server events (socket emissions). -/
inductive SEvent where
  | userLeft (room : String) (userId : String) (userName : Option String)
      (users : List User)
  | userJoined (room : String) (user : User) (users : List User)
  | joinSuccess (toConn : String) (roomId : String) (user : User)
      (users : List User)
  | roomUsersResponse (toConn : String) (roomId : String) (users : List User)
  | serverError (toConn : String) (msg : String)
  | newMessage (room : String) (text : String) (sender : User)
      (attachment : Option Attachment)
  | mediaReadyTo (toConn : String) (senderId senderName roomId : String)
  | mediaReadyRoom (room : String) (exceptConn : String)
      (senderId senderName roomId : String)
  | initiateTo (toConn : String) (senderId senderName : String)
  | offerTo (toConn : String) (offer : String) (senderId senderName : String)
  | answerTo (toConn : String) (answer : String) (senderId senderName : String)
  | iceTo (toConn : String) (candidate : String) (senderId senderName : String)
  | renegotiateTo (toConn : String) (senderId senderName : String)
deriving Repr, DecidableEq

/-- The server's mutable module state. -/
structure ServerState where
  rooms : RoomsT
  sockRooms : SockT
  tracker : TrackT
deriving Repr, DecidableEq

def initialState : ServerState := ⟨[], [], []⟩

/-! ### Association-list and user-list helpers mirroring the JS operations -/

/-- `rooms[roomId]` lookup. -/
def lookupRoom : RoomsT → String → Option (List User)
  | [], _ => none
  | (k, us) :: rest, rid => if k = rid then some us else lookupRoom rest rid

/-- Replace the users of an existing room (in-place mutation of the object). -/
def setRoom : RoomsT → String → List User → RoomsT
  | [], _, _ => []
  | (k, us) :: rest, rid, v =>
      if k = rid then (k, v) :: rest else (k, us) :: setRoom rest rid v

/-- `delete rooms[roomId]`. -/
def deleteRoom : RoomsT → String → RoomsT
  | [], _ => []
  | (k, us) :: rest, rid =>
      if k = rid then rest else (k, us) :: deleteRoom rest rid

/-- `users.find(u => u.id === conn)`. -/
def findUser : List User → String → Option User
  | [], _ => none
  | u :: rest, conn => if u.id = conn then some u else findUser rest conn

/-- `users.findIndex(u => u.id === conn) !== -1`. -/
def hasUser (users : List User) (conn : String) : Bool :=
  (findUser users conn).isSome

/-- `users.splice(index, 1)` at the found index: drop the first user with
this id. -/
def removeUser : List User → String → List User
  | [], _ => []
  | u :: rest, conn =>
      if u.id = conn then rest else u :: removeUser rest conn

/-- `existingUser.name = userName`: rename the first user with this id. -/
def setUserName : List User → String → String → List User
  | [], _, _ => []
  | u :: rest, conn, un =>
      if u.id = conn then { u with name := un } :: rest
      else u :: setUserName rest conn un

/-- `users.filter(u => u.id !== conn)`. -/
def otherUsers (users : List User) (conn : String) : List User :=
  users.filter (fun u => u.id ≠ conn)

/-- Lookup of a connection's Socket.IO room set. -/
def getSock (socks : SockT) (conn : String) : List String :=
  match socks with
  | [] => []
  | (k, v) :: rest => if k = conn then v else getSock rest conn

/-- Overwrite a connection's Socket.IO room set. -/
def setSock : SockT → String → List String → SockT
  | [], conn, v => [(conn, v)]
  | (k, w) :: rest, conn, v =>
      if k = conn then (k, v) :: rest else (k, w) :: setSock rest conn v

/-- Remove a connection's Socket.IO room record (socket destroyed). -/
def deleteSock : SockT → String → SockT
  | [], _ => []
  | (k, w) :: rest, conn =>
      if k = conn then rest else (k, w) :: deleteSock rest conn

/-- `socket.leave(room)`: drop one occurrence of the room. -/
def removeFirst : List String → String → List String
  | [], _ => []
  | y :: rest, x => if y = x then rest else y :: removeFirst rest x

/-- The tracker key `` `${roomId}-${socket.id}` ``. -/
def trackerKey (roomId conn : String) : String := roomId ++ "-" ++ conn

/-- `Map.delete` on the tracker. -/
def removeKey : TrackT → String → TrackT
  | [], _ => []
  | y :: rest, x => if y = x then rest else y :: removeKey rest x

/-! ### Server handlers -/

/-- The `Array.from(socket.rooms).forEach` loop at the start of the
`join-room` handler: for each Socket.IO room of the joining socket, leave it
and, when the registry has that room and the socket is in its user list,
splice the user out and broadcast `user-left` (without a `userName` field). -/
def implicitLeave (rooms : RoomsT) (conn : String) :
    List String → RoomsT × List SEvent
  | [] => (rooms, [])
  | r :: rest =>
      let (rooms1, evs1) :=
        match lookupRoom rooms r with
        | none => (rooms, ([] : List SEvent))
        | some us =>
            if hasUser us conn then
              let us' := removeUser us conn
              (setRoom rooms r us', [SEvent.userLeft r conn none us'])
            else (rooms, [])
      let (rooms2, evs2) := implicitLeave rooms1 conn rest
      (rooms2, evs1 ++ evs2)

/-- The `join-room` handler. -/
def joinRoom (s : ServerState) (conn roomId uname : String) :
    ServerState × List SEvent :=
  if roomId = "" then (s, [.serverError conn "Invalid room ID"])
  else if uname = "" then (s, [.serverError conn "Invalid username"])
  else
    let sockList := getSock s.sockRooms conn
    let (rooms1, evs1) := implicitLeave s.rooms conn sockList
    let rooms2 :=
      if (lookupRoom rooms1 roomId).isSome then rooms1
      else rooms1 ++ [(roomId, [])]
    let users := (lookupRoom rooms2 roomId).getD []
    let users' :=
      match findUser users conn with
      | some _ => setUserName users conn uname
      | none => users ++ [⟨conn, uname⟩]
    let rooms3 := setRoom rooms2 roomId users'
    let s' : ServerState :=
      { rooms := rooms3
        sockRooms := setSock s.sockRooms conn [roomId]
        tracker := s.tracker }
    (s', evs1 ++ [.userJoined roomId ⟨conn, uname⟩ users',
                  .joinSuccess conn roomId ⟨conn, uname⟩ users'])

/-- The `get-room-users` handler (reads state only). -/
def getRoomUsers (s : ServerState) (conn roomId : String) : List SEvent :=
  if roomId = "" then [.serverError conn "Invalid room ID"]
  else
    match lookupRoom s.rooms roomId with
    | none => [.roomUsersResponse conn roomId []]
    | some users =>
        match findUser users conn with
        | none =>
            [.serverError conn
              ("User " ++ conn ++ " not found in room " ++ roomId)]
        | some _ => [.roomUsersResponse conn roomId (otherUsers users conn)]

/-- MIME types accepted by `send-message`. -/
def allowedTypes : List String :=
  ["image/jpeg", "image/png", "image/gif", "application/pdf",
   "application/vnd.openxmlformats-officedocument.wordprocessingml.document"]

/-- The `send-message` handler.  The generated message id (`Date.now()`) and
ISO timestamp are clock inputs and are omitted from the event payload; the
handler never mutates the server state, which the returned state reflects. -/
def sendMessage (s : ServerState) (conn roomId msg : String)
    (sender : Option User) (attachment : Option Attachment) :
    ServerState × List SEvent :=
  if roomId = "" then (s, [.serverError conn "Invalid room ID"])
  else if msg = "" ∧ attachment = none then
    (s, [.serverError conn "Invalid message"])
  else
    match sender with
    | none => (s, [.serverError conn "Invalid sender information"])
    | some snd =>
      if snd.name = "" then (s, [.serverError conn "Invalid sender information"])
      else
        let attachmentCheck : Option String :=
          match attachment with
          | none => none
          | some a =>
              if a.aid = "" ∨ a.name = "" ∨ a.typ = "" ∨ a.data = "" ∨
                  a.size = 0 then
                some "Invalid attachment data"
              else if a.size > 5 * 1024 * 1024 then
                some "File size exceeds 5MB limit"
              else if a.typ ∉ allowedTypes then
                some "Invalid file type. Only images, PDFs, and DOCX files are allowed"
              else none
        match attachmentCheck with
        | some e => (s, [.serverError conn e])
        | none =>
            match lookupRoom s.rooms roomId with
            | none => (s, [.serverError conn "Room does not exist"])
            | some _ => (s, [.newMessage roomId msg snd attachment])

/-- The `leave-room` handler. -/
def leaveRoom (s : ServerState) (conn roomId uname : String) :
    ServerState × List SEvent :=
  if roomId = "" then (s, [.serverError conn "Invalid room ID"])
  else if uname = "" then (s, [.serverError conn "Invalid username"])
  else
    match lookupRoom s.rooms roomId with
    | none => (s, [])
    | some users =>
        match findUser users conn with
        | none => (s, [])
        | some u =>
            let users' := removeUser users conn
            let rooms1 := setRoom s.rooms roomId users'
            let rooms2 :=
              if users'.isEmpty then deleteRoom rooms1 roomId else rooms1
            let s' : ServerState :=
              { rooms := rooms2
                sockRooms :=
                  setSock s.sockRooms conn
                    (removeFirst (getSock s.sockRooms conn) roomId)
                tracker := removeKey s.tracker (trackerKey roomId conn) }
            (s', [.userLeft roomId conn (some u.name) users'])

/-- The `Object.keys(rooms).forEach` removal loop of the `disconnect`
handler: for each room containing the socket, splice it out, delete the
tracker key, broadcast `user-left`, and delete the room if now empty. -/
def disconnectRooms (conn : String) :
    RoomsT → TrackT → RoomsT × TrackT × List SEvent
  | [], tr => ([], tr, [])
  | (rid, users) :: rest, tr =>
      match findUser users conn with
      | some u =>
          let users' := removeUser users conn
          let tr1 := removeKey tr (trackerKey rid conn)
          let (rest', tr2, evs) := disconnectRooms conn rest tr1
          let keep := if users'.isEmpty then rest' else (rid, users') :: rest'
          (keep, tr2, .userLeft rid conn (some u.name) users' :: evs)
      | none =>
          let (rest', tr1, evs) := disconnectRooms conn rest tr
          ((rid, users) :: rest', tr1, evs)

/-- The `disconnect` handler. -/
def disconnect (s : ServerState) (conn : String) : ServerState × List SEvent :=
  let (rooms', tr', evs) := disconnectRooms conn s.rooms s.tracker
  ({ rooms := rooms', sockRooms := deleteSock s.sockRooms conn,
     tracker := tr' }, evs)

/-- The `user-media-ready` handler. -/
def userMediaReady (s : ServerState) (conn : String) (userId : Option String)
    (roomId : String) : ServerState × List SEvent :=
  if roomId = "" then (s, [.serverError conn "Invalid room ID"])
  else
    match lookupRoom s.rooms roomId with
    | none => (s, [.serverError conn ("Room " ++ roomId ++ " not found")])
    | some users =>
        match findUser users conn with
        | none =>
            (s, [.serverError conn
                  ("User " ++ conn ++ " not found in room " ++ roomId)])
        | some cur =>
            let key := trackerKey roomId conn
            if key ∈ s.tracker then (s, [])
            else
              let s1 := { s with tracker := key :: s.tracker }
              let notify :=
                match userId with
                | some target =>
                    if hasUser users target then
                      [SEvent.mediaReadyTo target conn cur.name roomId]
                    else []
                | none => [SEvent.mediaReadyRoom roomId conn conn cur.name roomId]
              let hints :=
                (otherUsers users conn).map
                  (fun u => SEvent.initiateTo conn u.id u.name)
              (s1, notify ++ hints)

/-- The helper `getUserName(userId, roomId)` at the bottom of `server.js`. -/
def getUserName (s : ServerState) (userId roomId : String) : String :=
  match lookupRoom s.rooms roomId with
  | none => "Unknown User"
  | some users =>
      match findUser users userId with
      | none => "Unknown User"
      | some u => u.name

/-- The `initiate-connection` relay handler: validates the room and both
memberships before forwarding. -/
def initiateConnection (s : ServerState) (conn targetUserId roomId : String) :
    List SEvent :=
  if roomId = "" ∨ targetUserId = "" then
    [.serverError conn "Invalid connection initiation data"]
  else
    match lookupRoom s.rooms roomId with
    | none => [.serverError conn ("Room " ++ roomId ++ " not found")]
    | some users =>
        match findUser users conn with
        | none =>
            [.serverError conn
              ("Sender " ++ conn ++ " not found in room " ++ roomId)]
        | some snd =>
            match findUser users targetUserId with
            | none =>
                [.serverError conn
                  ("Target user " ++ targetUserId ++ " not found in room " ++
                    roomId)]
            | some _ => [.initiateTo targetUserId conn snd.name]

/-- The `webrtc-offer` relay handler: checks each field, then that the room
exists and the receiver is one of its users, before forwarding. -/
def webrtcOffer (s : ServerState)
    (conn offer receiverId senderName roomId : String) : List SEvent :=
  if roomId = "" then [.serverError conn "Missing roomId in WebRTC offer"]
  else if receiverId = "" then
    [.serverError conn "Missing receiverId in WebRTC offer"]
  else if offer = "" then
    [.serverError conn "Missing offer data in WebRTC offer"]
  else
    match lookupRoom s.rooms roomId with
    | none => [.serverError conn ("Room " ++ roomId ++ " not found")]
    | some users =>
        if users.any (fun u => u.id = receiverId) then
          [.offerTo receiverId offer conn senderName]
        else
          [.serverError conn
            ("Receiver " ++ receiverId ++ " is not in room " ++ roomId)]

/-- The `webrtc-answer` relay handler: checks only field presence and
forwards to the receiver's connection id. -/
def webrtcAnswer (s : ServerState)
    (conn answer receiverId senderName roomId : String) : List SEvent :=
  if roomId = "" ∨ receiverId = "" ∨ answer = "" then
    [.serverError conn "Invalid WebRTC answer data"]
  else [.answerTo receiverId answer conn senderName]

/-- The `webrtc-ice-candidate` relay handler: checks only field presence and
forwards, with the sender name looked up via `getUserName`. -/
def webrtcIceCandidate (s : ServerState)
    (conn candidate receiverId roomId : String) : List SEvent :=
  if roomId = "" ∨ receiverId = "" ∨ candidate = "" then
    [.serverError conn "Invalid ICE candidate data"]
  else [.iceTo receiverId candidate conn (getUserName s conn roomId)]

/-- The `webrtc-renegotiate` relay handler: checks only field presence and
forwards. -/
def webrtcRenegotiate (s : ServerState) (conn receiverId roomId : String) :
    List SEvent :=
  if roomId = "" ∨ receiverId = "" then
    [.serverError conn "Invalid renegotiation data"]
  else [.renegotiateTo receiverId conn (getUserName s conn roomId)]

/-! ### Client-side model: native peer connection and signaling handlers -/

/-- `RTCPeerConnection.signalingState` values the handlers branch on. -/
inductive SigState where
  | stable
  | haveLocalOffer
  | haveRemoteOffer
  | closed
deriving Repr, DecidableEq

/-- A session description (`RTCSessionDescriptionInit`): a type tag
("offer", "answer" or "rollback") and an opaque SDP blob. -/
structure SDesc where
  typ : String
  sdp : String
deriving Repr, DecidableEq

/-- Model of one native `RTCPeerConnection`, per the browser contract the
client relies on: signaling state, the two descriptions, the list of ICE
candidates actually applied via `addIceCandidate`, and the connection state
string. -/
structure PeerConn where
  signalingState : SigState
  localDesc : Option SDesc
  remoteDesc : Option SDesc
  appliedCandidates : List String
  connectionState : String
deriving Repr, DecidableEq

/-- `new RTCPeerConnection(rtcConfig)`. -/
def newPeerConn : PeerConn :=
  { signalingState := .stable, localDesc := none, remoteDesc := none,
    appliedCandidates := [], connectionState := "new" }

/-- `setLocalDescription`, per the native contract: a rollback description
undoes the pending offer (whichever side is pending) and returns to stable,
but is rejected with `InvalidStateError` when the signaling state is
already stable (or closed); a plain offer is accepted in stable or
`have-local-offer` and enters `have-local-offer`; an answer is accepted
only in `have-remote-offer` and completes the exchange back to stable. -/
def setLocalDescription (pc : PeerConn) (d : SDesc) :
    Except String PeerConn :=
  if d.typ = "rollback" then
    match pc.signalingState with
    | .haveLocalOffer =>
        .ok { pc with localDesc := none, signalingState := .stable }
    | .haveRemoteOffer =>
        .ok { pc with remoteDesc := none, signalingState := .stable }
    | _ => .error "InvalidStateError"
  else if d.typ = "offer" then
    match pc.signalingState with
    | .stable =>
        .ok { pc with localDesc := some d, signalingState := .haveLocalOffer }
    | .haveLocalOffer =>
        .ok { pc with localDesc := some d, signalingState := .haveLocalOffer }
    | _ => .error "InvalidStateError"
  else
    match pc.signalingState with
    | .haveRemoteOffer =>
        .ok { pc with localDesc := some d, signalingState := .stable }
    | _ => .error "InvalidStateError"

/-- `setRemoteDescription`, per the native contract: rollback undoes the
pending offer and returns to stable, rejected with `InvalidStateError` in
the stable (or closed) state; a remote offer is accepted in stable or
`have-remote-offer`; a remote answer only in `have-local-offer`. -/
def setRemoteDescription (pc : PeerConn) (d : SDesc) :
    Except String PeerConn :=
  if d.typ = "rollback" then
    match pc.signalingState with
    | .haveLocalOffer =>
        .ok { pc with localDesc := none, signalingState := .stable }
    | .haveRemoteOffer =>
        .ok { pc with remoteDesc := none, signalingState := .stable }
    | _ => .error "InvalidStateError"
  else if d.typ = "offer" then
    match pc.signalingState with
    | .stable =>
        .ok { pc with remoteDesc := some d, signalingState := .haveRemoteOffer }
    | .haveRemoteOffer =>
        .ok { pc with remoteDesc := some d, signalingState := .haveRemoteOffer }
    | _ => .error "InvalidStateError"
  else
    match pc.signalingState with
    | .haveLocalOffer =>
        .ok { pc with remoteDesc := some d, signalingState := .stable }
    | _ => .error "InvalidStateError"

/-- `createAnswer`: produces an answer description for the current remote
offer (the handlers call it only right after a remote offer has been
applied, where the native call succeeds). -/
def createAnswer (pc : PeerConn) : SDesc :=
  ⟨"answer", (pc.remoteDesc.getD ⟨"", ""⟩).sdp⟩

/-- `addIceCandidate`: records the candidate as applied. -/
def addIceCandidate (pc : PeerConn) (c : String) : PeerConn :=
  { pc with appliedCandidates := pc.appliedCandidates ++ [c] }

/-- The client's `peerConnections` map, keyed by the remote member's id. -/
abbrev PeersT := List (String × PeerConn)

def lookupPC : PeersT → String → Option PeerConn
  | [], _ => none
  | (k, pc) :: rest, uid => if k = uid then some pc else lookupPC rest uid

/-- `Map.set`: replace if present, append otherwise. -/
def setPC : PeersT → String → PeerConn → PeersT
  | [], uid, pc => [(uid, pc)]
  | (k, old) :: rest, uid, pc =>
      if k = uid then (k, pc) :: rest else (k, old) :: setPC rest uid pc

/-- Messages the client emits on the signaling socket. -/
inductive CMsg where
  | emitAnswer (receiverId : String) (answer : SDesc) (roomId : String)
  | emitOffer (receiverId : String) (offer : SDesc) (senderName roomId : String)
  | emitIce (receiverId : String) (candidate : String) (roomId : String)
  | emitRenegotiate (receiverId : String) (roomId : String)
  | emitInitiate (targetUserId : String) (roomId : String)
  | emitMediaReady (userId : Option String) (roomId : String)
deriving Repr, DecidableEq

/-- Client-side context (`videoContext` of `src/unnamed/part_000`), reduced
to the parts the signaling handlers read and write. -/
structure ClientCtx where
  peers : PeersT
  myName : String
  roomId : String
deriving Repr, DecidableEq

/-- Lines 414-426 of the `webrtc-offer` handler (the tail of its try
block): apply the remote offer, create an answer, set it locally, and emit
`webrtc-answer` back to the sender.  A rejected native call lands in the
catch at line 427, which only logs: the mutations already made to the
connection object persist in the map and nothing is emitted. -/
def respondToOffer (ctx : ClientCtx) (peers0 : PeersT) (senderId : String)
    (offer : SDesc) (pc : PeerConn) : ClientCtx × List CMsg :=
  match setRemoteDescription pc offer with
  | .error _ => ({ ctx with peers := setPC peers0 senderId pc }, [])
  | .ok pc1 =>
      let ans := createAnswer pc1
      match setLocalDescription pc1 ans with
      | .error _ => ({ ctx with peers := setPC peers0 senderId pc1 }, [])
      | .ok pc2 =>
          ({ ctx with peers := setPC peers0 senderId pc2 },
           [CMsg.emitAnswer senderId ans ctx.roomId])

/-- The `webrtc-offer` handler installed by `initializeWebRTC` in
`src/unnamed/part_000` (lines 385-430): create and store the peer
connection if absent; if the signaling state is not stable, attempt
`setLocalDescription(rollback)` and then `setRemoteDescription(rollback)`;
then respond via `respondToOffer`.  Each await mutates the connection
object held in the map, so when a later native call rejects, the mutations
made so far persist while the catch at line 427 only logs and the rest of
the try block — applying and answering the offer — never runs. -/
def handleRemoteOffer (ctx : ClientCtx) (senderId : String) (offer : SDesc) :
    ClientCtx × List CMsg :=
  let pc0 :=
    match lookupPC ctx.peers senderId with
    | some pc => pc
    | none => newPeerConn
  let peers0 :=
    match lookupPC ctx.peers senderId with
    | some _ => ctx.peers
    | none => setPC ctx.peers senderId newPeerConn
  if pc0.signalingState ≠ .stable then
    match setLocalDescription pc0 ⟨"rollback", ""⟩ with
    | .error _ => ({ ctx with peers := setPC peers0 senderId pc0 }, [])
    | .ok pc1 =>
        match setRemoteDescription pc1 ⟨"rollback", ""⟩ with
        | .error _ => ({ ctx with peers := setPC peers0 senderId pc1 }, [])
        | .ok pc2 => respondToOffer ctx peers0 senderId offer pc2
  else respondToOffer ctx peers0 senderId offer pc0

/-- The `webrtc-answer` handler of `src/unnamed/part_000` (lines 433-454):
apply the answer only when the signaling state is `have-local-offer`; a
rejected native call is caught and logged. -/
def handleRemoteAnswer (ctx : ClientCtx) (senderId : String) (answer : SDesc) :
    ClientCtx :=
  match lookupPC ctx.peers senderId with
  | none => ctx
  | some pc =>
      if pc.signalingState = .haveLocalOffer then
        match setRemoteDescription pc answer with
        | .error _ => ctx
        | .ok pc' => { ctx with peers := setPC ctx.peers senderId pc' }
      else ctx

/-- The `webrtc-ice-candidate` handler of `src/unnamed/part_000`
(lines 457-475): apply the candidate only when a remote description is set;
otherwise the candidate is logged and no state is recorded. -/
def handleIceCandidate (ctx : ClientCtx) (senderId candidate : String) :
    ClientCtx :=
  match lookupPC ctx.peers senderId with
  | none => ctx
  | some pc =>
      if pc.remoteDesc.isSome then
        let pc' := addIceCandidate pc candidate
        { ctx with peers := setPC ctx.peers senderId pc' }
      else ctx

/-- The `webrtc-ice-candidate` handler of `src/src/lib/webrtc.ts`
(lines 252-261): when the connection is not closed it calls
`addIceCandidate` immediately; with no remote description set the native
call rejects and the catch only logs, so the candidate is likewise not
recorded anywhere. -/
def handleIceCandidateTs (ctx : ClientCtx) (senderId candidate : String) :
    ClientCtx :=
  match lookupPC ctx.peers senderId with
  | none => ctx
  | some pc =>
      if pc.signalingState ≠ .closed then
        if pc.remoteDesc.isSome then
          let pc' := addIceCandidate pc candidate
          { ctx with peers := setPC ctx.peers senderId pc' }
        else ctx
      else ctx

/-! ### Initiator tie-break (src/src/components/VideoRoom.tsx) -/

/-- `const shouldInitiate = socket.id && socket.id < data.userId`: the local
side initiates exactly when its id is lexicographically smaller (an
undefined socket id, modelled as the empty string, never initiates). -/
def shouldInitiate (myId theirId : String) : Bool :=
  myId ≠ "" && myId < theirId

/-- The tie-break decision of `handleUserMediaReady` (VideoRoom.tsx lines
242-268): with local media ready, emit `initiate-connection` to the peer
exactly when `shouldInitiate`. -/
def handleUserMediaReadyClient (myId : String) (mediaReady : Bool)
    (theirId roomId : String) : List CMsg :=
  if mediaReady then
    if shouldInitiate myId theirId then [CMsg.emitInitiate theirId roomId]
    else []
  else []

/-- The per-user work of `handleRoomUsersResponse` (VideoRoom.tsx lines
271-301): announce media ready to the user, then emit
`initiate-connection` exactly when `shouldInitiate`. -/
def roomUsersResponseStep (myId : String) (u : User) (roomId : String) :
    List CMsg :=
  CMsg.emitMediaReady (some u.id) roomId ::
    (if shouldInitiate myId u.id then [CMsg.emitInitiate u.id roomId] else [])

/-- `handleRoomUsersResponse`: with local media ready and a non-empty user
list, process each existing user in order (the stagger delay only spaces the
emissions out in time). -/
def handleRoomUsersResponseClient (myId : String) (mediaReady : Bool)
    (users : List User) (roomId : String) : List CMsg :=
  if mediaReady ∧ users ≠ [] then
    users.foldr (fun u acc => roomUsersResponseStep myId u roomId ++ acc) []
  else []

/-! ### Media health monitor (startStreamHeartbeat, src/unnamed/part_000) -/

/-- A media track as the heartbeat observes it: `readyState === 'live'` and
the `enabled` flag. -/
structure Track where
  live : Bool
  enabled : Bool
deriving Repr, DecidableEq

/-- The closure state of one heartbeat: the consecutive-failure counter and
the last seen enabled flags. -/
structure HBState where
  failureCount : Nat
  lastVideoEnabled : Bool
  lastAudioEnabled : Bool
deriving Repr, DecidableEq

/-- `label.includes('local-stream')`. -/
def strIncludes (s sub : String) : Bool := decide (sub.data <:+: s.data)

/-- `checkTrackHealth`: a track is healthy when live and enabled (the code
flags an issue when `readyState !== 'live'`, or when live but disabled). -/
def checkTrackHealth (t : Track) : Bool := t.live && t.enabled

/-- Result of scanning one track list inside `checkTracks`. -/
structure TrackScan where
  tracks : List Track
  lastEnabled : Bool
  hasIssues : Bool
  hasChanges : Bool
deriving Repr, DecidableEq

/-- One iteration of the per-track `forEach` body in `checkTracks`: flag
issues from `checkTrackHealth` and from an unexpected enabled-state change
on a local stream, force-re-enable a live track that should be enabled, and
update the last seen state. -/
def scanTrack (label : String) (shouldBeEnabled : Bool) (t : Track)
    (lastEnabled : Bool) : Track × Bool × Bool × Bool :=
  let issue1 := !checkTrackHealth t
  let issue2 := strIncludes label "local-stream" && t.enabled ≠ lastEnabled &&
      t.enabled ≠ shouldBeEnabled
  let (t', last', changed) :=
    if t.live && shouldBeEnabled then
      (if t.enabled then (t, true, false) else ({ t with enabled := true }, true, true))
    else if t.live && !shouldBeEnabled then (t, false, false)
    else (t, lastEnabled, false)
  (t', last', issue1 || issue2, changed)

/-- The `forEach` over a whole track list, threading the last seen state. -/
def scanTracks (label : String) (shouldBeEnabled : Bool) :
    List Track → Bool → TrackScan
  | [], lastEnabled =>
      { tracks := [], lastEnabled := lastEnabled, hasIssues := false,
        hasChanges := false }
  | t :: rest, lastEnabled =>
      let (t', last', issue, changed) := scanTrack label shouldBeEnabled t lastEnabled
      let sc := scanTracks label shouldBeEnabled rest last'
      { tracks := t' :: sc.tracks, lastEnabled := sc.lastEnabled,
        hasIssues := issue || sc.hasIssues,
        hasChanges := changed || sc.hasChanges }

/-- Result of one `checkTracks` heartbeat cycle.  `restartLocalMedia` is
true when the cycle invoked the full `initLocalStream` re-acquisition (which
stops every track of the previous local stream before requesting a new
`getUserMedia` stream); `emits` is the list of signaling-socket emissions
performed by the cycle. -/
structure HBResult where
  videoTracks : List Track
  audioTracks : List Track
  hb : HBState
  restartLocalMedia : Bool
  tracksChangedEvent : Bool
  emits : List CMsg
deriving Repr, DecidableEq

/-- One cycle of `checkTracks` (src/unnamed/part_000 lines 922-1065): `none`
when the stream is inactive and the heartbeat stops; otherwise scan both
track lists, then update the consecutive-failure counter — on issues the
counter is incremented and, past the threshold (`failureCount > 3`) with the
label exactly `local-stream` and a stored local video element, the full
local re-acquisition is triggered; with no issues the counter resets.  The
cycle performs no signaling-socket emission on any path. -/
def checkTracks (label : String)
    (videoDisabled audioDisabled hasLocalElement streamActive : Bool)
    (vts ats : List Track) (st : HBState) : Option HBResult :=
  if !streamActive then none
  else
    let vs := scanTracks label (!videoDisabled) vts st.lastVideoEnabled
    let sc2 := scanTracks label (!audioDisabled) ats st.lastAudioEnabled
    let hasIssues := vs.hasIssues || sc2.hasIssues
    let hasChanges := vs.hasChanges || sc2.hasChanges
    if hasIssues then
      let fc := st.failureCount + 1
      let restart := decide (fc > 3) && label = "local-stream" && hasLocalElement
      some { videoTracks := vs.tracks, audioTracks := sc2.tracks,
             hb := { failureCount := fc, lastVideoEnabled := vs.lastEnabled,
                     lastAudioEnabled := sc2.lastEnabled },
             restartLocalMedia := restart, tracksChangedEvent := hasChanges,
             emits := [] }
    else
      some { videoTracks := vs.tracks, audioTracks := sc2.tracks,
             hb := { failureCount := 0, lastVideoEnabled := vs.lastEnabled,
                     lastAudioEnabled := sc2.lastEnabled },
             restartLocalMedia := false, tracksChangedEvent := hasChanges,
             emits := [] }

/-- The remote track `onended` handler (src/unnamed/part_000 lines 719-733):
when the connection is currently `connected`, emit a `webrtc-renegotiate`
request addressed to that peer. -/
def onRemoteTrackEnded (connectionState userId roomId : String) : List CMsg :=
  if connectionState = "connected" then [CMsg.emitRenegotiate userId roomId]
  else []

/-! ### Operation sequences over the Room Registry and the state invariant -/

/-- One registry-mutating operation: an explicit `join-room`, an explicit
`leave-room`, or a socket `disconnect`. -/
inductive RegOp where
  | join (conn roomId uname : String)
  | leave (conn roomId uname : String)
  | disc (conn : String)
deriving Repr, DecidableEq

def applyOp (s : ServerState) : RegOp → ServerState
  | .join c r n => (joinRoom s c r n).1
  | .leave c r n => (leaveRoom s c r n).1
  | .disc c => (disconnect s c).1

/-- Run a sequence of registry operations from the empty initial state. -/
def runOps (ops : List RegOp) : ServerState := ops.foldl applyOp initialState

/-- Structural invariant of reachable server states: room keys are unique,
each room's user ids are unique, every membership is mirrored in the
member's Socket.IO room set, and a connection id lives in at most one room. -/
structure RegInv (s : ServerState) : Prop where
  keysNodup : (s.rooms.map Prod.fst).Nodup
  usersNodup : ∀ p ∈ s.rooms, (p.2.map User.id).Nodup
  coupling : ∀ p ∈ s.rooms, ∀ u ∈ p.2, p.1 ∈ getSock s.sockRooms u.id
  atMostOne : ∀ p ∈ s.rooms, ∀ q ∈ s.rooms, ∀ u ∈ p.2,
      hasUser q.2 u.id = true → p = q

/-- Is this event a relayed "media ready" announcement? -/
def isMediaBroadcast : SEvent → Bool
  | .mediaReadyTo _ _ _ _ => true
  | .mediaReadyRoom _ _ _ _ _ => true
  | _ => false

/-- Deliver `n` consecutive `user-media-ready` messages from the same member
for the same room, collecting all emitted events. -/
def umrTimes (conn : String) (userId : Option String) (roomId : String) :
    Nat → ServerState → ServerState × List SEvent
  | 0, s => (s, [])
  | n + 1, s =>
      let (s1, evs1) := userMediaReady s conn userId roomId
      let (s2, evs2) := umrTimes conn userId roomId n s1
      (s2, evs1 ++ evs2)

/-- Does this message list contain an `initiate-connection` emission
addressed to the given peer? -/
def emitsInitiate (msgs : List CMsg) (theirId roomId : String) : Bool :=
  decide (CMsg.emitInitiate theirId roomId ∈ msgs)

/-! ## Helper lemmas -/

theorem lookupPC_setPC_self (ps : PeersT) (uid : String) (pc : PeerConn) :
    lookupPC (setPC ps uid pc) uid = some pc := by
  induction ps with
  | nil => simp [setPC, lookupPC]
  | cons hd tl ih =>
      obtain ⟨k, old⟩ := hd
      by_cases hk : k = uid
      · simp [setPC, lookupPC, hk]
      · simp [setPC, lookupPC, hk, ih]

theorem setPC_setPC (ps : PeersT) (uid : String) (a b : PeerConn) :
    setPC (setPC ps uid a) uid b = setPC ps uid b := by
  induction ps with
  | nil => simp [setPC]
  | cons hd tl ih =>
      obtain ⟨k, old⟩ := hd
      by_cases hk : k = uid
      · simp [setPC, hk]
      · simp [setPC, hk, ih]

theorem shouldInitiate_eq_true_iff (a b : String) :
    shouldInitiate a b = true ↔ a ≠ "" ∧ a < b := by
  simp [shouldInitiate, Bool.and_eq_true, decide_eq_true_eq]

/-! ## C3: initiator tie-break -/

/-- C3: for any two distinct (defined) connection ids, the tie-break
`socket.id < data.userId` selects exactly the side with the
lexicographically smaller id; both coordination handlers
(`handleUserMediaReady` and `handleRoomUsersResponse`) make the identical
id-based decision, so the outcome does not depend on which readiness or
presence event arrives first on either side; in particular `"a1"` initiates
against `"b2"` and not conversely. -/
theorem tiebreak_selects_smaller_id (a b : String) (hab : a ≠ b)
    (ha : a ≠ "") (hb : b ≠ "") :
    ((shouldInitiate a b = true ↔ a < b) ∧
     (shouldInitiate a b = true ∨ shouldInitiate b a = true) ∧
     ¬(shouldInitiate a b = true ∧ shouldInitiate b a = true)) ∧
    (∀ roomId uname : String,
       emitsInitiate (handleUserMediaReadyClient a true b roomId) b roomId =
         shouldInitiate a b ∧
       emitsInitiate
           (handleRoomUsersResponseClient a true [⟨b, uname⟩] roomId) b roomId =
         shouldInitiate a b) ∧
    (shouldInitiate "a1" "b2" = true ∧ shouldInitiate "b2" "a1" = false) := by
  refine ⟨⟨?_, ?_, ?_⟩, ?_, ?_, ?_⟩
  · rw [shouldInitiate_eq_true_iff]
    exact ⟨fun h => h.2, fun h => ⟨ha, h⟩⟩
  · rcases lt_trichotomy a b with h | h | h
    · exact Or.inl ((shouldInitiate_eq_true_iff a b).2 ⟨ha, h⟩)
    · exact absurd h hab
    · exact Or.inr ((shouldInitiate_eq_true_iff b a).2 ⟨hb, h⟩)
  · rintro ⟨h1, h2⟩
    rw [shouldInitiate_eq_true_iff] at h1 h2
    exact absurd h2.2 (asymm h1.2)
  · intro roomId uname
    constructor
    · cases h : shouldInitiate a b <;>
        simp [handleUserMediaReadyClient, emitsInitiate, h]
    · cases h : shouldInitiate a b <;>
        simp [handleRoomUsersResponseClient, roomUsersResponseStep,
          emitsInitiate, h]
  · rw [shouldInitiate_eq_true_iff]
    refine ⟨by decide, ?_⟩
    rw [String.lt_iff_toList_lt]
    decide
  · rw [shouldInitiate]
    have : ¬ (("b2" : String) < "a1") := by
      rw [String.lt_iff_toList_lt]; decide
    simp [this]

/-- Witness for C3 at the concrete ids `"a1"` and `"b2"`. -/
theorem tiebreak_selects_smaller_id_witness :
    ((shouldInitiate "a1" "b2" = true ↔ "a1" < "b2") ∧
     (shouldInitiate "a1" "b2" = true ∨ shouldInitiate "b2" "a1" = true) ∧
     ¬(shouldInitiate "a1" "b2" = true ∧ shouldInitiate "b2" "a1" = true)) ∧
    (∀ roomId uname : String,
       emitsInitiate (handleUserMediaReadyClient "a1" true "b2" roomId) "b2"
           roomId = shouldInitiate "a1" "b2" ∧
       emitsInitiate
           (handleRoomUsersResponseClient "a1" true [⟨"b2", uname⟩] roomId)
           "b2" roomId = shouldInitiate "a1" "b2") ∧
    (shouldInitiate "a1" "b2" = true ∧ shouldInitiate "b2" "a1" = false) :=
  tiebreak_selects_smaller_id "a1" "b2" (by decide) (by decide) (by decide)

/-! ## C2: ICE candidates before the remote description -/

/-- C2 counterexample: for a peer with no remote description yet, the
`webrtc-ice-candidate` handler leaves the client state completely unchanged
(the candidate is not retained anywhere), and after a remote offer later
arrives and the remote description is set, the candidate still has not been
applied — contradicting the claim that such candidates are retained and
applied once a remote description exists. -/
theorem ice_candidate_before_remote_desc_not_retained :
    handleIceCandidate ⟨[("p", newPeerConn)], "me", "R"⟩ "p" "cand1" =
      ⟨[("p", newPeerConn)], "me", "R"⟩ ∧
    (lookupPC (handleRemoteOffer
        (handleIceCandidate ⟨[("p", newPeerConn)], "me", "R"⟩ "p" "cand1")
        "p" ⟨"offer", "sdpA"⟩).1.peers "p").map PeerConn.remoteDesc =
      some (some ⟨"offer", "sdpA"⟩) ∧
    (lookupPC (handleRemoteOffer
        (handleIceCandidate ⟨[("p", newPeerConn)], "me", "R"⟩ "p" "cand1")
        "p" ⟨"offer", "sdpA"⟩).1.peers "p").map PeerConn.appliedCandidates =
      some [] := by
  decide

/-- C2 amended: an ICE candidate received after the remote description is
set is applied immediately (appended to the connection's applied-candidate
list); a candidate received before any remote description is set is dropped
— both the `part_000` handler and the `webrtc.ts` handler leave the state
unchanged — and no mechanism retains it for later application. -/
theorem ice_candidate_immediate_or_dropped (ctx : ClientCtx)
    (senderId cand : String) (pc : PeerConn)
    (hpc : lookupPC ctx.peers senderId = some pc) :
    (pc.remoteDesc.isSome = true →
       lookupPC (handleIceCandidate ctx senderId cand).peers senderId =
         some { pc with appliedCandidates := pc.appliedCandidates ++ [cand] }) ∧
    (pc.remoteDesc = none → handleIceCandidate ctx senderId cand = ctx) ∧
    (pc.remoteDesc = none → pc.signalingState ≠ .closed →
       handleIceCandidateTs ctx senderId cand = ctx) := by
  refine ⟨?_, ?_, ?_⟩
  · intro h
    simp [handleIceCandidate, hpc, h, addIceCandidate, lookupPC_setPC_self]
  · intro h
    simp [handleIceCandidate, hpc, h]
  · intro h hcl
    simp [handleIceCandidateTs, hpc, h, hcl]

/-- Witness for the amended C2 at a concrete peer state. -/
theorem ice_candidate_immediate_or_dropped_witness :
    (PeerConn.remoteDesc ⟨.haveRemoteOffer, none, some ⟨"offer", "s"⟩, [], "new"⟩ |>.isSome) = true ∧
    lookupPC (handleIceCandidate
        ⟨[("p", ⟨.haveRemoteOffer, none, some ⟨"offer", "s"⟩, [], "new"⟩)], "me", "R"⟩
        "p" "c1").peers "p" =
      some ⟨.haveRemoteOffer, none, some ⟨"offer", "s"⟩, ["c1"], "new"⟩ := by
  have h := ice_candidate_immediate_or_dropped
    ⟨[("p", ⟨.haveRemoteOffer, none, some ⟨"offer", "s"⟩, [], "new"⟩)], "me", "R"⟩
    "p" "c1" ⟨.haveRemoteOffer, none, some ⟨"offer", "s"⟩, [], "new"⟩ (by decide)
  exact ⟨by decide, h.1 (by decide)⟩

/-! ## C4: glare handling in the webrtc-offer handler -/

/-- C4 (code bug): on glare — a remote offer arriving while the connection
is in `have-local-offer` — the handler attempts the double rollback of
part_000 lines 409-411.  `setLocalDescription(rollback)` succeeds and
returns the connection to stable (discarding the in-flight local offer),
but the immediately following `setRemoteDescription(rollback)` is rejected
by the native layer with `InvalidStateError` in the stable state, so the
catch at line 427 swallows the error: the incoming offer is never applied
(the remote description stays unset) and no `webrtc-answer` is emitted.
The claimed recovery — roll back, apply the offer, answer as responder —
never completes.  Evaluated here at the concrete glare input. -/
theorem glare_rollback_aborts_without_answer :
    handleRemoteOffer
        ⟨[("p", ⟨.haveLocalOffer, some ⟨"offer", "mine"⟩, none, [], "new"⟩)],
          "me", "R"⟩
        "p" ⟨"offer", "theirs"⟩ =
      (⟨[("p", ⟨.stable, none, none, [], "new"⟩)], "me", "R"⟩, []) ∧
    (lookupPC (handleRemoteOffer
        ⟨[("p", ⟨.haveLocalOffer, some ⟨"offer", "mine"⟩, none, [], "new"⟩)],
          "me", "R"⟩
        "p" ⟨"offer", "theirs"⟩).1.peers "p").map PeerConn.remoteDesc =
      some none ∧
    (handleRemoteOffer
        ⟨[("p", ⟨.haveLocalOffer, some ⟨"offer", "mine"⟩, none, [], "new"⟩)],
          "me", "R"⟩
        "p" ⟨"offer", "theirs"⟩).2 = [] := by
  decide

/-! ## C9: media health monitor threshold behaviour -/

/-- C9 counterexample: a remote stream (`remote-stream-Bob`) whose video
track is dead, with the consecutive-failure counter already at 10 — far past
the threshold — is checked: the counter increments to 11, yet the cycle
performs no signaling emission at all (in particular no renegotiation
request to the peer) and no re-acquisition, contradicting the claim that
remote-stream unhealthiness past the threshold emits a renegotiation
request via the relay. -/
theorem remote_stream_threshold_emits_nothing :
    (checkTracks "remote-stream-Bob" false false false true
        [⟨false, true⟩] [] ⟨10, true, true⟩).map
      (fun r => (r.hb.failureCount, r.restartLocalMedia, r.emits)) =
      some (11, false, []) := by
  decide

/-- C9 amended: the heartbeat keeps a consecutive-failure count per stream;
once the count exceeds the threshold (`failureCount > 3`) on the stream
labelled `local-stream` (with a stored local video element) the cycle
triggers the full local-media re-acquisition; on any other stream the cycle
never re-acquires, and no heartbeat cycle ever emits anything on the
signaling socket — a `webrtc-renegotiate` request to the peer is emitted
only by the remote track's `onended` handler while the connection state is
`connected`, not by the failure counter. -/
theorem heartbeat_threshold_behaviour :
    (∀ vd ad vts ats st r,
       checkTracks "local-stream" vd ad true true vts ats st = some r →
       r.hb.failureCount > 3 → r.restartLocalMedia = true) ∧
    (∀ label vd ad elem vts ats st r, label ≠ "local-stream" →
       checkTracks label vd ad elem true vts ats st = some r →
       r.restartLocalMedia = false) ∧
    (∀ label vd ad elem act vts ats st r,
       checkTracks label vd ad elem act vts ats st = some r →
       r.emits = []) ∧
    (∀ userId roomId : String,
       onRemoteTrackEnded "connected" userId roomId =
         [CMsg.emitRenegotiate userId roomId]) ∧
    (∀ cs userId roomId : String, cs ≠ "connected" →
       onRemoteTrackEnded cs userId roomId = []) := by
  refine ⟨?_, ?_, ?_, ?_, ?_⟩
  · intro vd ad vts ats st r hr hfc
    simp only [checkTracks, Bool.not_true, Bool.false_eq_true, if_false] at hr
    split at hr
    · simp only [Option.some.injEq] at hr
      subst hr
      simp only [Bool.and_eq_true, decide_eq_true_eq, Bool.and_true]
      simp only at hfc
      simp [hfc]
    · simp only [Option.some.injEq] at hr
      subst hr
      simp at hfc
  · intro label vd ad elem vts ats st r hlabel hr
    simp only [checkTracks, Bool.not_true, Bool.false_eq_true, if_false] at hr
    split at hr <;> simp only [Option.some.injEq] at hr <;> subst hr
    · simp [hlabel]
    · rfl
  · intro label vd ad elem act vts ats st r hr
    cases act with
    | false => simp [checkTracks] at hr
    | true =>
        simp only [checkTracks, Bool.not_true, Bool.false_eq_true, if_false]
          at hr
        split at hr <;> simp only [Option.some.injEq] at hr <;> subst hr <;>
          rfl
  · intro userId roomId
    rfl
  · intro cs userId roomId hcs
    simp [onRemoteTrackEnded, hcs]

/-- Witness for the amended C9: on the local stream with a dead track and
the counter at 3, the cycle increments past the threshold and triggers the
re-acquisition; on a remote stream in the same situation nothing is
triggered and nothing is emitted; a remote track ending while connected
emits the renegotiation request. -/
theorem heartbeat_threshold_behaviour_witness :
    (checkTracks "local-stream" false false true true [⟨false, true⟩] []
        ⟨3, true, true⟩ = some
        ⟨[⟨false, true⟩], [], ⟨4, true, true⟩, true, false, []⟩) ∧
    (checkTracks "remote-stream-Bob" false false false true [⟨false, true⟩] []
        ⟨3, true, true⟩).map HBResult.restartLocalMedia = some false ∧
    onRemoteTrackEnded "connected" "p" "R" = [CMsg.emitRenegotiate "p" "R"] := by
  have h := heartbeat_threshold_behaviour
  refine ⟨by decide, ?_, h.2.2.2.1 "p" "R"⟩
  have h2 := h.2.1 "remote-stream-Bob" false false false [⟨false, true⟩] []
    ⟨3, true, true⟩
    ⟨[⟨false, true⟩], [], ⟨4, true, true⟩, false, false, []⟩ (by decide) (by decide)
  decide

/-! ## C1: relay validation -/

/-- C1 counterexample: with an empty registry (room `"R"` does not exist, so
`"bob"` is not a member of it), the `webrtc-answer`, `webrtc-ice-candidate`
and `webrtc-renegotiate` handlers validate only field presence and deliver
the payload to `"bob"` with no caller-visible error — so a relayed payload
*is* delivered to a connection that is not a member of the stated room,
contradicting the claim that every relay operation checks room existence
and target membership. -/
theorem relay_answer_delivers_to_nonmember :
    lookupRoom initialState.rooms "R" = none ∧
    webrtcAnswer initialState "alice" "sdp-ans" "bob" "Alice" "R" =
      [SEvent.answerTo "bob" "sdp-ans" "alice" "Alice"] ∧
    webrtcIceCandidate initialState "alice" "cand" "bob" "R" =
      [SEvent.iceTo "bob" "cand" "alice" "Unknown User"] ∧
    webrtcRenegotiate initialState "alice" "bob" "R" =
      [SEvent.renegotiateTo "bob" "alice" "Unknown User"] := by
  decide

/-- C1 amended: the `webrtc-offer` and `initiate-connection` relay handlers
do check that the room exists and that the target (and, for
`initiate-connection`, the sender) is currently a member, emitting a
caller-visible error naming the failed check otherwise, and deliver only to
members; the `webrtc-answer`, `webrtc-ice-candidate` and
`webrtc-renegotiate` handlers check only that the fields are present and
forward to the target connection id regardless of room existence or
membership. -/
theorem relay_validation_amended :
    (∀ s : ServerState, ∀ conn offer recv sname rid : String,
       rid ≠ "" → recv ≠ "" → offer ≠ "" →
       (lookupRoom s.rooms rid = none →
          webrtcOffer s conn offer recv sname rid =
            [.serverError conn ("Room " ++ rid ++ " not found")]) ∧
       (∀ users, lookupRoom s.rooms rid = some users →
          (users.any (fun u => u.id = recv) = false →
             webrtcOffer s conn offer recv sname rid =
               [.serverError conn
                 ("Receiver " ++ recv ++ " is not in room " ++ rid)]) ∧
          (users.any (fun u => u.id = recv) = true →
             webrtcOffer s conn offer recv sname rid =
               [.offerTo recv offer conn sname]))) ∧
    (∀ s : ServerState, ∀ conn target rid : String,
       rid ≠ "" → target ≠ "" →
       (lookupRoom s.rooms rid = none →
          initiateConnection s conn target rid =
            [.serverError conn ("Room " ++ rid ++ " not found")]) ∧
       (∀ users, lookupRoom s.rooms rid = some users →
          (findUser users conn = none →
             initiateConnection s conn target rid =
               [.serverError conn
                 ("Sender " ++ conn ++ " not found in room " ++ rid)]) ∧
          (∀ snd, findUser users conn = some snd →
             (findUser users target = none →
                initiateConnection s conn target rid =
                  [.serverError conn
                    ("Target user " ++ target ++ " not found in room " ++
                      rid)]) ∧
             (∀ t, findUser users target = some t →
                initiateConnection s conn target rid =
                  [.initiateTo target conn snd.name])))) ∧
    (∀ s : ServerState, ∀ conn ans recv sname rid : String,
       rid ≠ "" → recv ≠ "" → ans ≠ "" →
       webrtcAnswer s conn ans recv sname rid =
         [.answerTo recv ans conn sname]) ∧
    (∀ s : ServerState, ∀ conn cand recv rid : String,
       rid ≠ "" → recv ≠ "" → cand ≠ "" →
       webrtcIceCandidate s conn cand recv rid =
         [.iceTo recv cand conn (getUserName s conn rid)]) ∧
    (∀ s : ServerState, ∀ conn recv rid : String, rid ≠ "" → recv ≠ "" →
       webrtcRenegotiate s conn recv rid =
         [.renegotiateTo recv conn (getUserName s conn rid)]) := by
  refine ⟨?_, ?_, ?_, ?_, ?_⟩
  · intro s conn offer recv sname rid hr hv ho
    refine ⟨fun hn => ?_, fun users hu => ⟨fun hm => ?_, fun hm => ?_⟩⟩
    · simp [webrtcOffer, hr, hv, ho, hn]
    · simp [webrtcOffer, hr, hv, ho, hu, hm]
    · simp [webrtcOffer, hr, hv, ho, hu, hm]
  · intro s conn target rid hr ht
    refine ⟨fun hn => ?_,
      fun users hu => ⟨fun hm => ?_, fun snd hs => ⟨fun hn2 => ?_,
        fun t ht2 => ?_⟩⟩⟩
    · simp [initiateConnection, hr, ht, hn]
    · simp [initiateConnection, hr, ht, hu, hm]
    · simp [initiateConnection, hr, ht, hu, hs, hn2]
    · simp [initiateConnection, hr, ht, hu, hs, ht2]
  · intro s conn ans recv sname rid hr hv ha
    simp [webrtcAnswer, hr, hv, ha]
  · intro s conn cand recv rid hr hv hc
    simp [webrtcIceCandidate, hr, hv, hc]
  · intro s conn recv rid hr hv
    simp [webrtcRenegotiate, hr, hv]

/-- Witness for the amended C1: in a one-room state, an offer to a
non-member is rejected with the membership error, an offer to a member is
delivered, and an answer addressed to a non-member is forwarded anyway. -/
theorem relay_validation_amended_witness :
    webrtcOffer ⟨[("R", [⟨"a", "A"⟩])], [], []⟩ "a" "o" "z" "A" "R" =
      [SEvent.serverError "a" ("Receiver " ++ "z" ++ " is not in room " ++ "R")] ∧
    webrtcOffer ⟨[("R", [⟨"a", "A"⟩, ⟨"b", "B"⟩])], [], []⟩ "a" "o" "b" "A" "R" =
      [SEvent.offerTo "b" "o" "a" "A"] ∧
    webrtcAnswer ⟨[("R", [⟨"a", "A"⟩])], [], []⟩ "a" "x" "z" "A" "R" =
      [SEvent.answerTo "z" "x" "a" "A"] := by
  have h := relay_validation_amended
  refine ⟨((h.1 ⟨[("R", [⟨"a", "A"⟩])], [], []⟩ "a" "o" "z" "A" "R"
      (by decide) (by decide) (by decide)).2 [⟨"a", "A"⟩] rfl).1 (by decide),
    ((h.1 ⟨[("R", [⟨"a", "A"⟩, ⟨"b", "B"⟩])], [], []⟩ "a" "o" "b" "A" "R"
      (by decide) (by decide) (by decide)).2 [⟨"a", "A"⟩, ⟨"b", "B"⟩] rfl).2
      (by decide),
    h.2.2.1 ⟨[("R", [⟨"a", "A"⟩])], [], []⟩ "a" "x" "z" "A" "R"
      (by decide) (by decide) (by decide)⟩

/-! ## C10: attachment validation in send-message -/

/-- C10: a `send-message` carrying an attachment whose size exceeds 5 MB
(`5*1024*1024`) or whose MIME type is outside the allowed set is rejected:
the handler emits exactly one `server-error` to the sender and nothing else
— in particular no `new-message` broadcast — and the server state is
returned unchanged. -/
theorem oversized_or_bad_type_attachment_rejected
    (s : ServerState) (conn roomId msg : String) (sender : Option User)
    (a : Attachment)
    (hbad : a.size > 5 * 1024 * 1024 ∨ a.typ ∉ allowedTypes) :
    ∃ emsg, sendMessage s conn roomId msg sender (some a) =
      (s, [SEvent.serverError conn emsg]) := by
  by_cases h1 : roomId = ""
  · exact ⟨"Invalid room ID", by simp [sendMessage, h1]⟩
  cases sender with
  | none => exact ⟨"Invalid sender information", by simp [sendMessage, h1]⟩
  | some snd =>
    by_cases h2 : snd.name = ""
    · exact ⟨"Invalid sender information", by simp [sendMessage, h1, h2]⟩
    by_cases h3 : a.aid = "" ∨ a.name = "" ∨ a.typ = "" ∨ a.data = "" ∨
        a.size = 0
    · exact ⟨"Invalid attachment data", by simp [sendMessage, h1, h2, h3]⟩
    by_cases h4 : a.size > 5 * 1024 * 1024
    · exact ⟨"File size exceeds 5MB limit",
        by simp [sendMessage, h1, h2, h3, h4]⟩
    · have h5 : a.typ ∉ allowedTypes := by
        rcases hbad with hb | hb
        · exact absurd hb h4
        · exact hb
      exact ⟨"Invalid file type. Only images, PDFs, and DOCX files are allowed",
        by simp [sendMessage, h1, h2, h3, h4, h5]⟩

/-- Witness for C10: a 6 MB PDF attachment is rejected with the sender as
the only recipient and the state unchanged. -/
theorem oversized_or_bad_type_attachment_rejected_witness :
    ∃ emsg, sendMessage ⟨[("R", [⟨"a", "A"⟩])], [], []⟩ "a" "R" "hi"
        (some ⟨"a", "A"⟩)
        (some ⟨"f1", "doc.pdf", "application/pdf", "blob", 6 * 1024 * 1024⟩) =
      (⟨[("R", [⟨"a", "A"⟩])], [], []⟩,
       [SEvent.serverError "a" emsg]) :=
  oversized_or_bad_type_attachment_rejected ⟨[("R", [⟨"a", "A"⟩])], [], []⟩
    "a" "R" "hi" (some ⟨"a", "A"⟩)
    ⟨"f1", "doc.pdf", "application/pdf", "blob", 6 * 1024 * 1024⟩
    (Or.inl (by norm_num))

/-! ## Lemmas on the room table -/

theorem lookupRoom_eq_none_iff (rooms : RoomsT) (rid : String) :
    lookupRoom rooms rid = none ↔ rid ∉ rooms.map Prod.fst := by
  induction rooms with
  | nil => simp [lookupRoom]
  | cons hd tl ih =>
      obtain ⟨k, us⟩ := hd
      by_cases hk : k = rid
      · subst hk
        simp [lookupRoom]
      · simp [lookupRoom, hk, ih, Ne.symm hk]

theorem keys_setRoom (rooms : RoomsT) (rid : String) (v : List User) :
    (setRoom rooms rid v).map Prod.fst = rooms.map Prod.fst := by
  induction rooms with
  | nil => simp [setRoom]
  | cons hd tl ih =>
      obtain ⟨k, us⟩ := hd
      by_cases hk : k = rid
      · simp [setRoom, hk]
      · simp [setRoom, hk, ih]

theorem lookupRoom_setRoom_self (rooms : RoomsT) (rid : String) (v : List User)
    (h : (lookupRoom rooms rid).isSome) :
    lookupRoom (setRoom rooms rid v) rid = some v := by
  induction rooms with
  | nil => simp [lookupRoom] at h
  | cons hd tl ih =>
      obtain ⟨k, us⟩ := hd
      by_cases hk : k = rid
      · simp [setRoom, lookupRoom, hk]
      · simp only [lookupRoom, hk, if_false] at h
        simp [setRoom, lookupRoom, hk, ih h]

theorem lookupRoom_setRoom_ne (rooms : RoomsT) (rid rid' : String)
    (v : List User) (h : rid' ≠ rid) :
    lookupRoom (setRoom rooms rid v) rid' = lookupRoom rooms rid' := by
  induction rooms with
  | nil => simp [setRoom]
  | cons hd tl ih =>
      obtain ⟨k, us⟩ := hd
      by_cases hk : k = rid
      · subst hk
        simp [setRoom, lookupRoom, Ne.symm h]
      · simp only [setRoom, hk, if_false, lookupRoom]
        rw [ih]

theorem lookupRoom_deleteRoom_self (rooms : RoomsT) (rid : String)
    (h : (rooms.map Prod.fst).Nodup) :
    lookupRoom (deleteRoom rooms rid) rid = none := by
  induction rooms with
  | nil => simp [deleteRoom, lookupRoom]
  | cons hd tl ih =>
      obtain ⟨k, us⟩ := hd
      simp only [List.map_cons, List.nodup_cons] at h
      by_cases hk : k = rid
      · subst hk
        simp only [deleteRoom, if_pos rfl]
        rw [lookupRoom_eq_none_iff]
        exact h.1
      · simp [deleteRoom, hk, lookupRoom, ih h.2]

theorem disconnectRooms_keys_sublist (conn : String) (rooms : RoomsT)
    (tr : TrackT) :
    ((disconnectRooms conn rooms tr).1.map Prod.fst).Sublist
      (rooms.map Prod.fst) := by
  induction rooms generalizing tr with
  | nil => simp [disconnectRooms]
  | cons hd tl ih =>
      obtain ⟨k, us⟩ := hd
      simp only [disconnectRooms]
      cases hf : findUser us conn with
      | some u =>
          by_cases he : (removeUser us conn).isEmpty
          · simp only [he, if_pos rfl]
            exact (ih _).trans (List.sublist_cons_self _ _)
          · simp only [he, Bool.false_eq_true, if_false, List.map_cons]
            exact (ih _).cons₂ _
      | none =>
          simp only [List.map_cons]
          exact (ih _).cons₂ _

theorem disconnectRooms_lookup_none (conn rid : String) (users : List User)
    (u : User) : ∀ (rooms : RoomsT) (tr : TrackT),
    (rooms.map Prod.fst).Nodup →
    lookupRoom rooms rid = some users →
    findUser users conn = some u →
    removeUser users conn = [] →
    lookupRoom (disconnectRooms conn rooms tr).1 rid = none := by
  intro rooms
  induction rooms with
  | nil => intro tr _ hl; simp [lookupRoom] at hl
  | cons hd tl ih =>
      intro tr hnd hl hf hr
      obtain ⟨k, us⟩ := hd
      simp only [List.map_cons, List.nodup_cons] at hnd
      by_cases hk : k = rid
      · subst hk
        simp [lookupRoom] at hl
        subst hl
        simp only [disconnectRooms, hf, hr, List.isEmpty_nil, if_pos rfl]
        rw [lookupRoom_eq_none_iff]
        intro hmem
        exact hnd.1 ((disconnectRooms_keys_sublist conn tl _).mem hmem)
      · simp only [lookupRoom, hk, if_false] at hl
        simp only [disconnectRooms]
        cases hf2 : findUser us conn with
        | some u2 =>
            by_cases he : (removeUser us conn).isEmpty
            · simp only [he, if_pos rfl]
              exact ih _ hnd.2 hl hf hr
            · simp only [he, Bool.false_eq_true, if_false, lookupRoom, hk,
                if_false]
              exact ih _ hnd.2 hl hf hr
        | none =>
            simp only [lookupRoom, hk, if_false]
            exact ih _ hnd.2 hl hf hr

/-! ## C7: empty rooms are deleted; listing an unknown room is not an error -/

/-- C7: when an explicit `leave-room` or a `disconnect` removes the last
member of a room, the room record is deleted from the registry; and a
`get-room-users` request for an unknown room id is answered with an empty
member list (a `room-users-response`), not an error. -/
theorem empty_room_deleted_and_listing_empty :
    (∀ s : ServerState, ∀ conn roomId uname : String,
       ∀ users : List User, ∀ u : User,
       (s.rooms.map Prod.fst).Nodup →
       roomId ≠ "" → uname ≠ "" →
       lookupRoom s.rooms roomId = some users →
       findUser users conn = some u →
       removeUser users conn = [] →
       lookupRoom (leaveRoom s conn roomId uname).1.rooms roomId = none) ∧
    (∀ s : ServerState, ∀ conn roomId : String,
       ∀ users : List User, ∀ u : User,
       (s.rooms.map Prod.fst).Nodup →
       lookupRoom s.rooms roomId = some users →
       findUser users conn = some u →
       removeUser users conn = [] →
       lookupRoom (disconnect s conn).1.rooms roomId = none) ∧
    (∀ s : ServerState, ∀ conn roomId : String, roomId ≠ "" →
       lookupRoom s.rooms roomId = none →
       getRoomUsers s conn roomId =
         [.roomUsersResponse conn roomId []]) := by
  refine ⟨?_, ?_, ?_⟩
  · intro s conn roomId uname users u hnd hr hu hl hf hrem
    simp only [leaveRoom, hr, hu, if_false, hl, hf, hrem, List.isEmpty_nil,
      if_pos rfl]
    apply lookupRoom_deleteRoom_self
    rw [keys_setRoom]
    exact hnd
  · intro s conn roomId users u hnd hl hf hrem
    simp only [disconnect]
    exact disconnectRooms_lookup_none conn roomId users u s.rooms s.tracker
      hnd hl hf hrem
  · intro s conn roomId hr hl
    simp [getRoomUsers, hr, hl]

/-- Witness for C7: `"a"` is the sole member of `"R"`; an explicit leave
deletes the room and the subsequent `get-room-users` returns the empty
list. -/
theorem empty_room_deleted_and_listing_empty_witness :
    lookupRoom (leaveRoom ⟨[("R", [⟨"a", "A"⟩])], [("a", ["R"])], []⟩
        "a" "R" "A").1.rooms "R" = none ∧
    getRoomUsers (leaveRoom ⟨[("R", [⟨"a", "A"⟩])], [("a", ["R"])], []⟩
        "a" "R" "A").1 "b" "R" = [.roomUsersResponse "b" "R" []] := by
  have h := empty_room_deleted_and_listing_empty
  have h1 := h.1 ⟨[("R", [⟨"a", "A"⟩])], [("a", ["R"])], []⟩ "a" "R" "A"
    [⟨"a", "A"⟩] ⟨"a", "A"⟩ (by decide) (by decide) (by decide) rfl rfl rfl
  exact ⟨h1, h.2.2 _ "b" "R" (by decide) h1⟩

/-! ## Lemmas on the media-ready tracker -/

theorem removeKey_sublist (l : TrackT) (x : String) :
    (removeKey l x).Sublist l := by
  induction l with
  | nil => simp [removeKey]
  | cons y rest ih =>
      by_cases hy : y = x
      · simp [removeKey, hy]
      · simpa [removeKey, hy] using ih.cons₂ y

theorem not_mem_removeKey_self (l : TrackT) (x : String) (h : l.Nodup) :
    x ∉ removeKey l x := by
  induction l with
  | nil => simp [removeKey]
  | cons y rest ih =>
      simp only [List.nodup_cons] at h
      by_cases hy : y = x
      · subst hy
        simp [removeKey, h.1]
      · simp only [removeKey, hy, if_false, List.mem_cons]
        rintro (rfl | hmem)
        · exact hy rfl
        · exact ih h.2 hmem

theorem disconnectRooms_tracker_sublist (conn : String) (rooms : RoomsT)
    (tr : TrackT) : ((disconnectRooms conn rooms tr).2.1).Sublist tr := by
  induction rooms generalizing tr with
  | nil => simp [disconnectRooms]
  | cons hd tl ih =>
      obtain ⟨k, us⟩ := hd
      simp only [disconnectRooms]
      cases hf : findUser us conn with
      | some u => exact (ih _).trans (removeKey_sublist _ _)
      | none => exact ih _

theorem disconnectRooms_tracker_removes (conn rid : String)
    (users : List User) (u : User) : ∀ (rooms : RoomsT) (tr : TrackT),
    tr.Nodup →
    lookupRoom rooms rid = some users →
    findUser users conn = some u →
    trackerKey rid conn ∉ (disconnectRooms conn rooms tr).2.1 := by
  intro rooms
  induction rooms with
  | nil => intro tr _ hl; simp [lookupRoom] at hl
  | cons hd tl ih =>
      intro tr hnd hl hf
      obtain ⟨k, us⟩ := hd
      by_cases hk : k = rid
      · subst hk
        simp [lookupRoom] at hl
        subst hl
        simp only [disconnectRooms, hf]
        intro hmem
        have hmem2 := (disconnectRooms_tracker_sublist conn tl
          (removeKey tr (trackerKey k conn))).mem hmem
        exact not_mem_removeKey_self tr (trackerKey k conn) hnd hmem2
      · simp only [lookupRoom, hk, if_false] at hl
        simp only [disconnectRooms]
        cases hf2 : findUser us conn with
        | some u2 =>
            exact ih _ ((removeKey_sublist tr _).nodup hnd) hl hf
        | none => exact ih _ hnd hl hf

theorem filter_initiate_nil (conn : String) (l : List User) :
    (l.map (fun u => SEvent.initiateTo conn u.id u.name)).filter
      isMediaBroadcast = [] := by
  induction l with
  | nil => simp
  | cons u rest ih => simp [isMediaBroadcast, ih]

/-- Every `user-media-ready` call either leaves the state unchanged and
broadcasts nothing, or pushes the tracker key and broadcasts at most once. -/
theorem umr_state_or_tracker (s : ServerState) (conn : String)
    (userId : Option String) (roomId : String) :
    ((userMediaReady s conn userId roomId).1 = s ∧
      (userMediaReady s conn userId roomId).2.filter isMediaBroadcast = []) ∨
    ((userMediaReady s conn userId roomId).1.tracker =
        trackerKey roomId conn :: s.tracker ∧
      ((userMediaReady s conn userId roomId).2.filter
          isMediaBroadcast).length ≤ 1) := by
  by_cases h1 : roomId = ""
  · left; simp [userMediaReady, h1, isMediaBroadcast]
  cases hl : lookupRoom s.rooms roomId with
  | none => left; simp [userMediaReady, h1, hl, isMediaBroadcast]
  | some users =>
    cases hf : findUser users conn with
    | none => left; simp [userMediaReady, h1, hl, hf, isMediaBroadcast]
    | some cur =>
      by_cases hk : trackerKey roomId conn ∈ s.tracker
      · left; simp [userMediaReady, h1, hl, hf, hk]
      · right
        refine ⟨by simp [userMediaReady, h1, hl, hf, hk], ?_⟩
        cases userId with
        | none =>
            simp [userMediaReady, h1, hl, hf, hk, List.filter_append,
              filter_initiate_nil, isMediaBroadcast]
        | some target =>
            by_cases ht : hasUser users target
            · simp [userMediaReady, h1, hl, hf, hk, ht, List.filter_append,
                filter_initiate_nil, isMediaBroadcast]
            · simp [userMediaReady, h1, hl, hf, hk, ht, List.filter_append,
                filter_initiate_nil, isMediaBroadcast]

/-- With the tracker key already present, a `user-media-ready` call never
changes the state and never broadcasts. -/
theorem umr_key_present (s : ServerState) (conn : String)
    (userId : Option String) (roomId : String)
    (h : trackerKey roomId conn ∈ s.tracker) :
    (userMediaReady s conn userId roomId).1 = s ∧
    (userMediaReady s conn userId roomId).2.filter isMediaBroadcast = [] := by
  by_cases h1 : roomId = ""
  · simp [userMediaReady, h1, isMediaBroadcast]
  cases hl : lookupRoom s.rooms roomId with
  | none => simp [userMediaReady, h1, hl, isMediaBroadcast]
  | some users =>
    cases hf : findUser users conn with
    | none => simp [userMediaReady, h1, hl, hf, isMediaBroadcast]
    | some cur => simp [userMediaReady, h1, hl, hf, h]

theorem umrTimes_key_present (conn : String) (userId : Option String)
    (roomId : String) : ∀ (m : Nat) (s : ServerState),
    trackerKey roomId conn ∈ s.tracker →
    (umrTimes conn userId roomId m s).2.filter isMediaBroadcast = [] := by
  intro m
  induction m with
  | zero => intro s _; simp [umrTimes]
  | succ k ih =>
      intro s h
      have hp := umr_key_present s conn userId roomId h
      simp only [umrTimes, List.filter_append, hp.2, List.nil_append]
      rw [hp.1]
      exact ih s h

/-! ## C8: at most one media-ready broadcast per membership -/

/-- C8: the server relays at most one "media ready" broadcast per
`(roomId, memberId)` membership: a repeat `user-media-ready` from a member
whose tracker key is set is skipped entirely (no events, no state change);
any number of consecutive `user-media-ready` messages from the same member
yields at most one relayed broadcast; a first successful announcement
records the tracker key; and both an explicit `leave-room` and a
`disconnect` of that member clear the key, so a fresh membership can
announce again. -/
theorem media_ready_broadcast_once :
    (∀ s : ServerState, ∀ conn : String, ∀ userId : Option String,
       ∀ roomId : String, ∀ users : List User, ∀ cur : User,
       roomId ≠ "" → lookupRoom s.rooms roomId = some users →
       findUser users conn = some cur →
       trackerKey roomId conn ∈ s.tracker →
       userMediaReady s conn userId roomId = (s, [])) ∧
    (∀ (n : Nat) (s : ServerState) (conn : String) (userId : Option String)
       (roomId : String),
       ((umrTimes conn userId roomId n s).2.filter
           isMediaBroadcast).length ≤ 1) ∧
    (∀ s : ServerState, ∀ conn roomId : String, ∀ users : List User,
       ∀ cur : User,
       roomId ≠ "" → lookupRoom s.rooms roomId = some users →
       findUser users conn = some cur →
       trackerKey roomId conn ∉ s.tracker →
       (userMediaReady s conn none roomId).1.tracker =
         trackerKey roomId conn :: s.tracker ∧
       (userMediaReady s conn none roomId).2 =
         SEvent.mediaReadyRoom roomId conn conn cur.name roomId ::
           (otherUsers users conn).map
             (fun u => SEvent.initiateTo conn u.id u.name)) ∧
    (∀ s : ServerState, ∀ conn roomId uname : String, ∀ users : List User,
       ∀ u : User, s.tracker.Nodup →
       roomId ≠ "" → uname ≠ "" →
       lookupRoom s.rooms roomId = some users → findUser users conn = some u →
       trackerKey roomId conn ∉ (leaveRoom s conn roomId uname).1.tracker) ∧
    (∀ s : ServerState, ∀ conn roomId : String, ∀ users : List User,
       ∀ u : User, s.tracker.Nodup →
       lookupRoom s.rooms roomId = some users → findUser users conn = some u →
       trackerKey roomId conn ∉ (disconnect s conn).1.tracker) := by
  refine ⟨?_, ?_, ?_, ?_, ?_⟩
  · intro s conn userId roomId users cur h1 hl hf hk
    simp [userMediaReady, h1, hl, hf, hk]
  · intro n
    induction n with
    | zero => intro s conn userId roomId; simp [umrTimes]
    | succ m ih =>
        intro s conn userId roomId
        rcases umr_state_or_tracker s conn userId roomId with
          ⟨hs, hfl⟩ | ⟨htr, hb⟩
        · simp only [umrTimes, List.filter_append, hfl, List.nil_append]
          rw [hs]
          exact ih s conn userId roomId
        · simp only [umrTimes, List.filter_append, List.length_append]
          have h2 := umrTimes_key_present conn userId roomId m
            (userMediaReady s conn userId roomId).1
            (by rw [htr]; exact List.mem_cons_self _ _)
          rw [h2]
          simpa using hb
  · intro s conn roomId users cur h1 hl hf hk
    constructor
    · simp [userMediaReady, h1, hl, hf, hk]
    · simp [userMediaReady, h1, hl, hf, hk]
  · intro s conn roomId uname users u hnd h1 hu hl hf
    simp only [leaveRoom, h1, hu, if_false, hl, hf]
    exact not_mem_removeKey_self _ _ hnd
  · intro s conn roomId users u hnd hl hf
    simp only [disconnect]
    exact disconnectRooms_tracker_removes conn roomId users u s.rooms
      s.tracker hnd hl hf

/-- Witness for C8 at a concrete two-member room: the first announcement
from `"a"` broadcasts and sets the key, the repeat announcement is skipped,
and the explicit leave clears the key. -/
theorem media_ready_broadcast_once_witness :
    (userMediaReady ⟨[("R", [⟨"a", "A"⟩, ⟨"b", "B"⟩])],
        [("a", ["R"]), ("b", ["R"])], []⟩ "a" none "R").1.tracker =
      ["R-a"] ∧
    userMediaReady ⟨[("R", [⟨"a", "A"⟩, ⟨"b", "B"⟩])],
        [("a", ["R"]), ("b", ["R"])], ["R-a"]⟩ "a" none "R" =
      (⟨[("R", [⟨"a", "A"⟩, ⟨"b", "B"⟩])],
        [("a", ["R"]), ("b", ["R"])], ["R-a"]⟩, []) ∧
    "R-a" ∉ (leaveRoom ⟨[("R", [⟨"a", "A"⟩, ⟨"b", "B"⟩])],
        [("a", ["R"]), ("b", ["R"])], ["R-a"]⟩ "a" "R" "A").1.tracker := by
  have h := media_ready_broadcast_once
  refine ⟨?_, ?_, ?_⟩
  · have h3 := (h.2.2.1 ⟨[("R", [⟨"a", "A"⟩, ⟨"b", "B"⟩])],
      [("a", ["R"]), ("b", ["R"])], []⟩ "a" "R" [⟨"a", "A"⟩, ⟨"b", "B"⟩]
      ⟨"a", "A"⟩ (by decide) rfl rfl (by decide)).1
    exact h3
  · exact h.1 ⟨[("R", [⟨"a", "A"⟩, ⟨"b", "B"⟩])],
      [("a", ["R"]), ("b", ["R"])], ["R-a"]⟩ "a" none "R"
      [⟨"a", "A"⟩, ⟨"b", "B"⟩] ⟨"a", "A"⟩ (by decide) rfl rfl (by decide)
  · exact h.2.2.2.1 ⟨[("R", [⟨"a", "A"⟩, ⟨"b", "B"⟩])],
      [("a", ["R"]), ("b", ["R"])], ["R-a"]⟩ "a" "R" "A"
      [⟨"a", "A"⟩, ⟨"b", "B"⟩] ⟨"a", "A"⟩ (by decide) (by decide) (by decide)
      rfl rfl

/-! ## Lemmas on user lists -/

theorem findUser_eq_none_iff (l : List User) (conn : String) :
    findUser l conn = none ↔ conn ∉ l.map User.id := by
  induction l with
  | nil => simp [findUser]
  | cons u rest ih =>
      by_cases hu : u.id = conn
      · simp [findUser, hu]
      · simp [findUser, hu, ih, Ne.symm hu]

theorem hasUser_eq_true_iff (l : List User) (conn : String) :
    hasUser l conn = true ↔ conn ∈ l.map User.id := by
  rw [hasUser, Option.isSome_iff_exists]
  constructor
  · rintro ⟨u, hu⟩
    by_contra hmem
    rw [← findUser_eq_none_iff] at hmem
    simp [hmem] at hu
  · intro hmem
    cases hf : findUser l conn with
    | none => rw [findUser_eq_none_iff] at hf; exact absurd hmem hf
    | some u => exact ⟨u, rfl⟩

theorem ids_removeUser_sublist (l : List User) (conn : String) :
    ((removeUser l conn).map User.id).Sublist (l.map User.id) := by
  induction l with
  | nil => simp [removeUser]
  | cons u rest ih =>
      by_cases hu : u.id = conn
      · simp only [removeUser, hu, if_pos rfl, List.map_cons]
        exact List.sublist_cons_self _ _
      · simp only [removeUser, hu, if_false, List.map_cons]
        exact ih.cons₂ _

theorem findUser_removeUser_self (l : List User) (conn : String)
    (h : (l.map User.id).Nodup) :
    findUser (removeUser l conn) conn = none := by
  induction l with
  | nil => simp [removeUser, findUser]
  | cons u rest ih =>
      simp only [List.map_cons, List.nodup_cons] at h
      by_cases hu : u.id = conn
      · subst hu
        simp only [removeUser, if_pos rfl]
        rw [findUser_eq_none_iff]
        exact h.1
      · simp only [removeUser, hu, if_false, findUser]
        exact ih h.2

theorem length_removeUser (l : List User) (conn : String)
    (h : hasUser l conn = true) :
    (removeUser l conn).length + 1 = l.length := by
  induction l with
  | nil => simp [hasUser, findUser] at h
  | cons u rest ih =>
      by_cases hu : u.id = conn
      · simp [removeUser, hu]
      · simp only [hasUser, findUser, hu, if_false] at h
        simp only [removeUser, hu, if_false, List.length_cons]
        rw [← ih h]

theorem findUser_append_of_none (l1 l2 : List User) (conn : String)
    (h : findUser l1 conn = none) :
    findUser (l1 ++ l2) conn = findUser l2 conn := by
  induction l1 with
  | nil => simp
  | cons u rest ih =>
      by_cases hu : u.id = conn
      · simp [findUser, hu] at h
      · simp only [findUser, hu, if_false] at h
        simp only [List.cons_append, findUser, hu, if_false]
        exact ih h

/-! ## C6: re-joining the same room -/

/-- C6 counterexample: `"a"` (displayed as `"Al"`) is the first of two
members of room `"R"` and joins `"R"` again as `"Alice"`.  The resulting
member list is `[Bo, Alice]` — the caller's entry was removed by the
"leave all other rooms" loop (which does not exclude the target room) and
re-appended at the end, with a `user-left` broadcast in between — not the
in-place update `[Alice, Bo]` the claim describes. -/
theorem rejoin_not_in_place :
    lookupRoom (joinRoom
        ⟨[("R", [⟨"a", "Al"⟩, ⟨"b", "Bo"⟩])],
         [("a", ["R"]), ("b", ["R"])], []⟩ "a" "R" "Alice").1.rooms "R" =
      some [⟨"b", "Bo"⟩, ⟨"a", "Alice"⟩] ∧
    lookupRoom (joinRoom
        ⟨[("R", [⟨"a", "Al"⟩, ⟨"b", "Bo"⟩])],
         [("a", ["R"]), ("b", ["R"])], []⟩ "a" "R" "Alice").1.rooms "R" ≠
      some [⟨"a", "Alice"⟩, ⟨"b", "Bo"⟩] ∧
    SEvent.userLeft "R" "a" none [⟨"b", "Bo"⟩] ∈
      (joinRoom ⟨[("R", [⟨"a", "Al"⟩, ⟨"b", "Bo"⟩])],
         [("a", ["R"]), ("b", ["R"])], []⟩ "a" "R" "Alice").2 := by
  decide

/-- C6 amended: when a connection that is already a member of the room
joins it again with a new display name, the member list keeps the same
length and still contains exactly one entry for that connection, now
carrying the new name — but the entry is removed (with a `user-left`
broadcast) and re-appended at the end of the list by the join handler's
leave-all-rooms loop, rather than updated in place. -/
theorem rejoin_same_room_amended (s : ServerState)
    (conn roomId uname : String) (users : List User) (u0 : User)
    (hr : roomId ≠ "") (hu : uname ≠ "")
    (hsock : getSock s.sockRooms conn = [roomId])
    (hl : lookupRoom s.rooms roomId = some users)
    (hf : findUser users conn = some u0)
    (hnd : (users.map User.id).Nodup) :
    lookupRoom (joinRoom s conn roomId uname).1.rooms roomId =
      some (removeUser users conn ++ [⟨conn, uname⟩]) ∧
    (removeUser users conn ++ [(⟨conn, uname⟩ : User)]).length =
      users.length ∧
    findUser (removeUser users conn ++ [⟨conn, uname⟩]) conn =
      some ⟨conn, uname⟩ ∧
    ((removeUser users conn ++ [(⟨conn, uname⟩ : User)]).map User.id).Nodup ∧
    SEvent.userLeft roomId conn none (removeUser users conn) ∈
      (joinRoom s conn roomId uname).2 := by
  have hhas : hasUser users conn = true := by rw [hasUser, hf]; rfl
  have h_impl : implicitLeave s.rooms conn [roomId] =
      (setRoom s.rooms roomId (removeUser users conn),
       [SEvent.userLeft roomId conn none (removeUser users conn)]) := by
    simp [implicitLeave, hl, hhas]
  have h_l1 : lookupRoom (setRoom s.rooms roomId (removeUser users conn))
      roomId = some (removeUser users conn) :=
    lookupRoom_setRoom_self _ _ _ (by simp [hl])
  have h_nf : findUser (removeUser users conn) conn = none :=
    findUser_removeUser_self users conn hnd
  have h_join : joinRoom s conn roomId uname =
      (⟨setRoom (setRoom s.rooms roomId (removeUser users conn)) roomId
          (removeUser users conn ++ [⟨conn, uname⟩]),
        setSock s.sockRooms conn [roomId], s.tracker⟩,
       [SEvent.userLeft roomId conn none (removeUser users conn),
        SEvent.userJoined roomId ⟨conn, uname⟩
          (removeUser users conn ++ [⟨conn, uname⟩]),
        SEvent.joinSuccess conn roomId ⟨conn, uname⟩
          (removeUser users conn ++ [⟨conn, uname⟩])]) := by
    simp [joinRoom, hr, hu, hsock, h_impl, h_l1, h_nf]
  refine ⟨?_, ?_, ?_, ?_, ?_⟩
  · rw [h_join]
    exact lookupRoom_setRoom_self _ _ _ (by simp [h_l1])
  · simp only [List.length_append, List.length_cons, List.length_nil]
    rw [length_removeUser users conn hhas]
  · rw [findUser_append_of_none _ _ _ h_nf]
    simp [findUser]
  · rw [List.map_append, List.nodup_append]
    refine ⟨(ids_removeUser_sublist users conn).nodup hnd, by simp, ?_⟩
    intro x hx
    have hnc : conn ∉ (removeUser users conn).map User.id :=
      (findUser_eq_none_iff _ _).1 h_nf
    simp only [List.map_cons, List.map_nil, List.mem_singleton]
    intro hcx
    exact hnc (hcx ▸ hx)
  · rw [h_join]
    exact List.mem_cons_self _ _

/-- Witness for the amended C6 at the concrete two-member room. -/
theorem rejoin_same_room_amended_witness :
    lookupRoom (joinRoom
        ⟨[("R", [⟨"a", "Al"⟩, ⟨"b", "Bo"⟩])],
         [("a", ["R"]), ("b", ["R"])], []⟩ "a" "R" "Alice").1.rooms "R" =
      some (removeUser [⟨"a", "Al"⟩, ⟨"b", "Bo"⟩] "a" ++ [⟨"a", "Alice"⟩]) ∧
    (removeUser [⟨"a", "Al"⟩, ⟨"b", "Bo"⟩] "a" ++
        [(⟨"a", "Alice"⟩ : User)]).length =
      ([⟨"a", "Al"⟩, ⟨"b", "Bo"⟩] : List User).length ∧
    findUser (removeUser [⟨"a", "Al"⟩, ⟨"b", "Bo"⟩] "a" ++ [⟨"a", "Alice"⟩])
        "a" = some ⟨"a", "Alice"⟩ ∧
    ((removeUser [⟨"a", "Al"⟩, ⟨"b", "Bo"⟩] "a" ++
        [(⟨"a", "Alice"⟩ : User)]).map User.id).Nodup ∧
    SEvent.userLeft "R" "a" none (removeUser [⟨"a", "Al"⟩, ⟨"b", "Bo"⟩] "a") ∈
      (joinRoom ⟨[("R", [⟨"a", "Al"⟩, ⟨"b", "Bo"⟩])],
         [("a", ["R"]), ("b", ["R"])], []⟩ "a" "R" "Alice").2 :=
  rejoin_same_room_amended
    ⟨[("R", [⟨"a", "Al"⟩, ⟨"b", "Bo"⟩])], [("a", ["R"]), ("b", ["R"])], []⟩
    "a" "R" "Alice" [⟨"a", "Al"⟩, ⟨"b", "Bo"⟩] ⟨"a", "Al"⟩
    (by decide) (by decide) rfl rfl rfl (by decide)

/-! ## Structural lemmas for the registry invariant -/

theorem hasUser_removeUser_ne (l : List User) (conn c : String) (h : c ≠ conn) :
    hasUser (removeUser l conn) c = hasUser l c := by
  induction l with
  | nil => rfl
  | cons u rest ih =>
      by_cases hu : u.id = conn
      · have hc : ¬u.id = c := fun hcc => h (hcc.symm.trans hu)
        simp only [hasUser, removeUser]
        rw [if_pos hu]
        simp only [findUser]
        rw [if_neg hc]
      · by_cases hc : u.id = c
        · simp [removeUser, hu, hasUser, findUser, hc, h]
        · simp only [removeUser, hu, if_false, hasUser, findUser, hc,
            if_false]
          exact ih

theorem hasUser_of_removeUser (l : List User) (conn c : String)
    (h : hasUser (removeUser l conn) c = true) : hasUser l c = true := by
  rw [hasUser_eq_true_iff] at h ⊢
  exact (ids_removeUser_sublist l conn).mem h

theorem mem_removeUser (l : List User) (conn : String) (u : User)
    (h : u ∈ removeUser l conn) : u ∈ l := by
  induction l with
  | nil => simpa [removeUser] using h
  | cons v rest ih =>
      by_cases hv : v.id = conn
      · simp only [removeUser, hv, if_pos rfl] at h
        exact List.mem_cons_of_mem _ h
      · simp only [removeUser, hv, if_false, List.mem_cons] at h
        rcases h with rfl | h
        · exact List.mem_cons_self _ _
        · exact List.mem_cons_of_mem _ (ih h)

theorem lookupRoom_mem (rooms : RoomsT) (rid : String) (us : List User)
    (h : lookupRoom rooms rid = some us) : (rid, us) ∈ rooms := by
  induction rooms with
  | nil => simp [lookupRoom] at h
  | cons hd tl ih =>
      obtain ⟨k, v⟩ := hd
      by_cases hk : k = rid
      · subst hk
        simp [lookupRoom] at h
        subst h
        exact List.mem_cons_self _ _
      · simp only [lookupRoom, hk, if_false] at h
        exact List.mem_cons_of_mem _ (ih h)

theorem mem_lookupRoom (rooms : RoomsT) (p : String × List User)
    (hnd : (rooms.map Prod.fst).Nodup) (h : p ∈ rooms) :
    lookupRoom rooms p.1 = some p.2 := by
  induction rooms with
  | nil => simp at h
  | cons hd tl ih =>
      obtain ⟨k, v⟩ := hd
      simp only [List.map_cons, List.nodup_cons] at hnd
      rcases List.mem_cons.1 h with rfl | h
      · simp [lookupRoom]
      · have hk : k ≠ p.1 := by
          intro hk
          exact hnd.1 (hk ▸ (List.mem_map.2 ⟨p, h, rfl⟩))
        simp only [lookupRoom, (by exact fun hc => hk hc : ¬k = p.1),
          if_false]
        exact ih hnd.2 h

theorem eq_of_keysNodup (rooms : RoomsT) (p q : String × List User)
    (hnd : (rooms.map Prod.fst).Nodup) (hp : p ∈ rooms) (hq : q ∈ rooms)
    (hk : p.1 = q.1) : p = q := by
  have h1 := mem_lookupRoom rooms p hnd hp
  have h2 := mem_lookupRoom rooms q hnd hq
  rw [hk, h2] at h1
  exact Prod.ext hk (Option.some.inj h1).symm

theorem mem_setRoom (rooms : RoomsT) (rid : String) (v : List User)
    (p : String × List User) (h : p ∈ setRoom rooms rid v) :
    p ∈ rooms ∨ p = (rid, v) := by
  induction rooms with
  | nil => simp [setRoom] at h
  | cons hd tl ih =>
      obtain ⟨k, us⟩ := hd
      by_cases hk : k = rid
      · subst hk
        simp [setRoom] at h
        rcases h with h1 | h1
        · exact Or.inr h1
        · exact Or.inl (List.mem_cons_of_mem _ h1)
      · simp only [setRoom, hk, if_false, List.mem_cons] at h
        rcases h with h1 | h1
        · exact Or.inl (h1 ▸ List.mem_cons_self _ _)
        · rcases ih h1 with h2 | h2
          · exact Or.inl (List.mem_cons_of_mem _ h2)
          · exact Or.inr h2

theorem mem_setRoom_nodup (rooms : RoomsT) (rid : String) (v : List User)
    (p : String × List User) (hnd : (rooms.map Prod.fst).Nodup)
    (h : p ∈ setRoom rooms rid v) :
    (p ∈ rooms ∧ p.1 ≠ rid) ∨ p = (rid, v) := by
  induction rooms with
  | nil => simp [setRoom] at h
  | cons hd tl ih =>
      obtain ⟨k, us⟩ := hd
      simp only [List.map_cons, List.nodup_cons] at hnd
      by_cases hk : k = rid
      · subst hk
        simp [setRoom] at h
        rcases h with h1 | h1
        · exact Or.inr h1
        · refine Or.inl ⟨List.mem_cons_of_mem _ h1, ?_⟩
          intro hpk
          exact hnd.1 (hpk ▸ (List.mem_map.2 ⟨p, h1, rfl⟩))
      · simp only [setRoom, hk, if_false, List.mem_cons] at h
        rcases h with h1 | h1
        · refine Or.inl ⟨h1 ▸ List.mem_cons_self _ _, ?_⟩
          rw [h1]
          exact hk
        · rcases ih hnd.2 h1 with ⟨h2, h3⟩ | h2
          · exact Or.inl ⟨List.mem_cons_of_mem _ h2, h3⟩
          · exact Or.inr h2

theorem mem_deleteRoom (rooms : RoomsT) (rid : String)
    (p : String × List User) (h : p ∈ deleteRoom rooms rid) : p ∈ rooms := by
  induction rooms with
  | nil => simpa [deleteRoom] using h
  | cons hd tl ih =>
      obtain ⟨k, us⟩ := hd
      by_cases hk : k = rid
      · simp only [deleteRoom, hk, if_pos rfl] at h
        exact List.mem_cons_of_mem _ h
      · simp only [deleteRoom, hk, if_false, List.mem_cons] at h
        rcases h with rfl | h
        · exact List.mem_cons_self _ _
        · exact List.mem_cons_of_mem _ (ih h)

theorem keys_deleteRoom_sublist (rooms : RoomsT) (rid : String) :
    ((deleteRoom rooms rid).map Prod.fst).Sublist (rooms.map Prod.fst) := by
  induction rooms with
  | nil => simp [deleteRoom]
  | cons hd tl ih =>
      obtain ⟨k, us⟩ := hd
      by_cases hk : k = rid
      · simp only [deleteRoom, hk, if_pos rfl, List.map_cons]
        exact List.sublist_cons_self _ _
      · simp only [deleteRoom, hk, if_false, List.map_cons]
        exact ih.cons₂ _

theorem lookupRoom_append_new (rooms : RoomsT) (rid : String) (v : List User)
    (h : lookupRoom rooms rid = none) :
    lookupRoom (rooms ++ [(rid, v)]) rid = some v := by
  induction rooms with
  | nil => simp [lookupRoom]
  | cons hd tl ih =>
      obtain ⟨k, us⟩ := hd
      by_cases hk : k = rid
      · simp [lookupRoom, hk] at h
      · simp only [lookupRoom, hk, if_false] at h
        simp only [List.cons_append, lookupRoom, hk, if_false]
        exact ih h

theorem mem_removeFirst_of_ne (l : List String) (x y : String)
    (hx : x ∈ l) (hxy : x ≠ y) : x ∈ removeFirst l y := by
  induction l with
  | nil => simp at hx
  | cons z rest ih =>
      by_cases hz : z = y
      · subst hz
        simp only [removeFirst, if_pos rfl]
        rcases List.mem_cons.1 hx with rfl | hx
        · exact absurd rfl hxy
        · exact hx
      · simp only [removeFirst, hz, if_false, List.mem_cons]
        rcases List.mem_cons.1 hx with rfl | hx
        · exact Or.inl rfl
        · exact Or.inr (ih hx)

theorem getSock_setSock_self (socks : SockT) (conn : String)
    (v : List String) : getSock (setSock socks conn v) conn = v := by
  induction socks with
  | nil => simp [setSock, getSock]
  | cons hd tl ih =>
      obtain ⟨k, w⟩ := hd
      by_cases hk : k = conn
      · simp [setSock, hk, getSock]
      · simp [setSock, hk, getSock, ih]

theorem getSock_setSock_ne (socks : SockT) (conn c : String)
    (v : List String) (h : c ≠ conn) :
    getSock (setSock socks conn v) c = getSock socks c := by
  induction socks with
  | nil => simp [setSock, getSock, Ne.symm h]
  | cons hd tl ih =>
      obtain ⟨k, w⟩ := hd
      by_cases hk : k = conn
      · subst hk
        simp [setSock, getSock, Ne.symm h]
      · simp only [setSock, hk, if_false, getSock]
        rw [ih]

theorem getSock_deleteSock_ne (socks : SockT) (conn c : String)
    (h : c ≠ conn) :
    getSock (deleteSock socks conn) c = getSock socks c := by
  induction socks with
  | nil => simp [deleteSock]
  | cons hd tl ih =>
      obtain ⟨k, w⟩ := hd
      by_cases hk : k = conn
      · subst hk
        simp [deleteSock, getSock, Ne.symm h]
      · simp only [deleteSock, hk, if_false, getSock]
        by_cases hc : k = c
        · simp [hc]
        · simp [hc, ih]

/-! ## Lemmas on the implicit-leave loop of join-room -/

theorem implicitLeave_cons_none (rooms : RoomsT) (conn r : String)
    (rest : List String) (h : lookupRoom rooms r = none) :
    implicitLeave rooms conn (r :: rest) = implicitLeave rooms conn rest := by
  rcases h2 : implicitLeave rooms conn rest with ⟨a, b⟩
  simp [implicitLeave, h, h2]

theorem implicitLeave_cons_skip (rooms : RoomsT) (conn r : String)
    (rest : List String) (us : List User) (h : lookupRoom rooms r = some us)
    (hu : hasUser us conn = false) :
    implicitLeave rooms conn (r :: rest) = implicitLeave rooms conn rest := by
  rcases h2 : implicitLeave rooms conn rest with ⟨a, b⟩
  simp [implicitLeave, h, hu, h2]

theorem implicitLeave_cons_hit (rooms : RoomsT) (conn r : String)
    (rest : List String) (us : List User) (h : lookupRoom rooms r = some us)
    (hu : hasUser us conn = true) :
    implicitLeave rooms conn (r :: rest) =
      ((implicitLeave (setRoom rooms r (removeUser us conn)) conn rest).1,
       SEvent.userLeft r conn none (removeUser us conn) ::
         (implicitLeave (setRoom rooms r (removeUser us conn)) conn
           rest).2) := by
  rcases h2 : implicitLeave (setRoom rooms r (removeUser us conn)) conn rest
    with ⟨a, b⟩
  simp [implicitLeave, h, hu, h2]

theorem keys_implicitLeave (conn : String) : ∀ (l : List String)
    (rooms : RoomsT),
    (implicitLeave rooms conn l).1.map Prod.fst = rooms.map Prod.fst := by
  intro l
  induction l with
  | nil => intro rooms; rfl
  | cons r rest ih =>
      intro rooms
      cases hl : lookupRoom rooms r with
      | none => rw [implicitLeave_cons_none rooms conn r rest hl]; exact ih rooms
      | some us =>
          by_cases hu : hasUser us conn = true
          · rw [implicitLeave_cons_hit rooms conn r rest us hl hu]
            rw [show ((implicitLeave (setRoom rooms r (removeUser us conn))
                conn rest).1,
                SEvent.userLeft r conn none (removeUser us conn) ::
                (implicitLeave (setRoom rooms r (removeUser us conn)) conn
                  rest).2).1 =
              (implicitLeave (setRoom rooms r (removeUser us conn)) conn
                rest).1 from rfl]
            rw [ih, keys_setRoom]
          · rw [implicitLeave_cons_skip rooms conn r rest us hl
              (Bool.not_eq_true _ ▸ Bool.of_not_eq_true hu)]
            exact ih rooms

theorem implicitLeave_corr (conn : String) : ∀ (l : List String)
    (rooms : RoomsT) (p : String × List User),
    p ∈ (implicitLeave rooms conn l).1 →
    ∃ q ∈ rooms, q.1 = p.1 ∧
      (p.2.map User.id).Sublist (q.2.map User.id) ∧
      ∀ c, c ≠ conn → hasUser p.2 c = hasUser q.2 c := by
  intro l
  induction l with
  | nil =>
      intro rooms p hp
      exact ⟨p, hp, rfl, List.Sublist.refl _, fun c _ => rfl⟩
  | cons r rest ih =>
      intro rooms p hp
      cases hl : lookupRoom rooms r with
      | none =>
          rw [implicitLeave_cons_none rooms conn r rest hl] at hp
          exact ih rooms p hp
      | some us =>
          by_cases hu : hasUser us conn = true
          · rw [implicitLeave_cons_hit rooms conn r rest us hl hu] at hp
            rcases ih _ p hp with ⟨q, hq, hk, hsub, hother⟩
            rcases mem_setRoom rooms r (removeUser us conn) q hq with
              hq2 | hq2
            · exact ⟨q, hq2, hk, hsub, hother⟩
            · refine ⟨(r, us), lookupRoom_mem rooms r us hl, ?_, ?_, ?_⟩
              · rw [hq2] at hk
                exact hk
              · rw [hq2] at hsub
                exact hsub.trans (ids_removeUser_sublist us conn)
              · intro c hc
                rw [hother c hc, hq2]
                exact hasUser_removeUser_ne us conn c hc
          · rw [implicitLeave_cons_skip rooms conn r rest us hl
              (Bool.not_eq_true _ ▸ Bool.of_not_eq_true hu)] at hp
            exact ih rooms p hp

theorem implicitLeave_clears (conn : String) : ∀ (l : List String)
    (rooms : RoomsT),
    (rooms.map Prod.fst).Nodup →
    (∀ q ∈ rooms, (q.2.map User.id).Nodup) →
    ∀ p ∈ (implicitLeave rooms conn l).1, p.1 ∈ l →
      hasUser p.2 conn = false := by
  intro l
  induction l with
  | nil => intro rooms _ _ p _ hmem; simp at hmem
  | cons r rest ih =>
      intro rooms hnd hund p hp hmem
      cases hl : lookupRoom rooms r with
      | none =>
          rw [implicitLeave_cons_none rooms conn r rest hl] at hp
          rcases List.mem_cons.1 hmem with hm | hm
          · rcases implicitLeave_corr conn rest rooms p hp with
              ⟨q, hq, hk, _, _⟩
            rw [lookupRoom_eq_none_iff] at hl
            exact absurd (List.mem_map.2 ⟨q, hq, hk.trans hm⟩) hl
          · exact ih rooms hnd hund p hp hm
      | some us =>
          by_cases hu : hasUser us conn = true
          · rw [implicitLeave_cons_hit rooms conn r rest us hl hu] at hp
            have hnd' : ((setRoom rooms r (removeUser us conn)).map
                Prod.fst).Nodup := by rw [keys_setRoom]; exact hnd
            have hund' : ∀ q ∈ setRoom rooms r (removeUser us conn),
                (q.2.map User.id).Nodup := by
              intro q hq
              rcases mem_setRoom rooms r (removeUser us conn) q hq with
                hq2 | hq2
              · exact hund q hq2
              · rw [hq2]
                exact (ids_removeUser_sublist us conn).nodup
                  (hund (r, us) (lookupRoom_mem rooms r us hl))
            rcases List.mem_cons.1 hmem with hm | hm
            · rcases implicitLeave_corr conn rest _ p hp with
                ⟨q, hq, hk, hsub, _⟩
              have hq3 : q = (r, removeUser us conn) := by
                have hlq := mem_lookupRoom _ q hnd' hq
                rw [hk, hm] at hlq
                rw [lookupRoom_setRoom_self rooms r (removeUser us conn)
                  (by simp [hl])] at hlq
                exact Prod.ext (hk.trans hm) (Option.some.inj hlq).symm
              by_contra hcon
              rw [Bool.not_eq_false, hasUser_eq_true_iff] at hcon
              have hcon2 : conn ∈ q.2.map User.id := hsub.mem hcon
              rw [hq3] at hcon2
              have := findUser_removeUser_self us conn
                (hund (r, us) (lookupRoom_mem rooms r us hl))
              rw [findUser_eq_none_iff] at this
              exact this hcon2
            · exact ih _ hnd' hund' p hp hm
          · have hu' : hasUser us conn = false := Bool.of_not_eq_true hu
            rw [implicitLeave_cons_skip rooms conn r rest us hl hu'] at hp
            rcases List.mem_cons.1 hmem with hm | hm
            · rcases implicitLeave_corr conn rest rooms p hp with
                ⟨q, hq, hk, hsub, _⟩
              have hq3 : q = (r, us) := by
                have hlq := mem_lookupRoom _ q hnd hq
                rw [hk, hm, hl] at hlq
                exact Prod.ext (hk.trans hm) (Option.some.inj hlq).symm
              by_contra hcon
              rw [Bool.not_eq_false, hasUser_eq_true_iff] at hcon
              have hcon2 : conn ∈ q.2.map User.id := hsub.mem hcon
              rw [hq3] at hcon2
              rw [← hasUser_eq_true_iff] at hcon2
              rw [hcon2] at hu'
              exact absurd hu' (by decide)
            · exact ih rooms hnd hund p hp hm

theorem implicitLeave_emits (conn r : String) (us : List User) :
    ∀ (l : List String) (rooms : RoomsT),
    r ∈ l → lookupRoom rooms r = some us → hasUser us conn = true →
    SEvent.userLeft r conn none (removeUser us conn) ∈
      (implicitLeave rooms conn l).2 := by
  intro l
  induction l with
  | nil => intro rooms hmem; simp at hmem
  | cons x rest ih =>
      intro rooms hmem hl hu
      by_cases hx : x = r
      · subst hx
        rw [implicitLeave_cons_hit rooms conn x rest us hl hu]
        exact List.mem_cons_self _ _
      · have hmem2 : r ∈ rest := by
          rcases List.mem_cons.1 hmem with hm | hm
          · exact absurd hm.symm hx
          · exact hm
        cases hlx : lookupRoom rooms x with
        | none =>
            rw [implicitLeave_cons_none rooms conn x rest hlx]
            exact ih rooms hmem2 hl hu
        | some vs =>
            by_cases hux : hasUser vs conn = true
            · rw [implicitLeave_cons_hit rooms conn x rest vs hlx hux]
              refine List.mem_cons_of_mem _ (ih _ hmem2 ?_ hu)
              rw [lookupRoom_setRoom_ne rooms x r (removeUser vs conn)
                (fun hc => hx hc.symm)]
              exact hl
            · rw [implicitLeave_cons_skip rooms conn x rest vs hlx
                (Bool.of_not_eq_true hux)]
              exact ih rooms hmem2 hl hu

/-! ## Lemmas on the disconnect removal loop -/

theorem disconnectRooms_cons_found (conn k : String) (us : List User)
    (tl : RoomsT) (tr : TrackT) (u : User)
    (hf : findUser us conn = some u) :
    disconnectRooms conn ((k, us) :: tl) tr =
      ((if (removeUser us conn).isEmpty then
          (disconnectRooms conn tl (removeKey tr (trackerKey k conn))).1
        else (k, removeUser us conn) ::
          (disconnectRooms conn tl (removeKey tr (trackerKey k conn))).1),
       (disconnectRooms conn tl (removeKey tr (trackerKey k conn))).2.1,
       SEvent.userLeft k conn (some u.name) (removeUser us conn) ::
         (disconnectRooms conn tl (removeKey tr (trackerKey k conn))).2.2) := by
  rcases h2 : disconnectRooms conn tl (removeKey tr (trackerKey k conn)) with
    ⟨a, b, c⟩
  simp [disconnectRooms, hf, h2]

theorem disconnectRooms_cons_notfound (conn k : String) (us : List User)
    (tl : RoomsT) (tr : TrackT) (hf : findUser us conn = none) :
    disconnectRooms conn ((k, us) :: tl) tr =
      ((k, us) :: (disconnectRooms conn tl tr).1,
       (disconnectRooms conn tl tr).2) := by
  rcases h2 : disconnectRooms conn tl tr with ⟨a, b, c⟩
  simp [disconnectRooms, hf, h2]

theorem disconnectRooms_corr (conn : String) : ∀ (rooms : RoomsT)
    (tr : TrackT) (p : String × List User),
    p ∈ (disconnectRooms conn rooms tr).1 →
    ∃ q ∈ rooms, q.1 = p.1 ∧
      (p.2.map User.id).Sublist (q.2.map User.id) ∧
      ∀ c, c ≠ conn → hasUser p.2 c = hasUser q.2 c := by
  intro rooms
  induction rooms with
  | nil => intro tr p hp; simp [disconnectRooms] at hp
  | cons hd tl ih =>
      intro tr p hp
      obtain ⟨k, us⟩ := hd
      cases hf : findUser us conn with
      | some u =>
          rw [disconnectRooms_cons_found conn k us tl tr u hf] at hp
          simp only at hp
          by_cases he : (removeUser us conn).isEmpty
          · rw [if_pos he] at hp
            rcases ih _ p hp with ⟨q, hq, hrest⟩
            exact ⟨q, List.mem_cons_of_mem _ hq, hrest⟩
          · rw [if_neg he] at hp
            rcases List.mem_cons.1 hp with h1 | h1
            · refine ⟨(k, us), List.mem_cons_self _ _, ?_, ?_, ?_⟩
              · rw [h1]
              · rw [h1]
                exact ids_removeUser_sublist us conn
              · intro c hc
                rw [h1]
                exact hasUser_removeUser_ne us conn c hc
            · rcases ih _ p h1 with ⟨q, hq, hrest⟩
              exact ⟨q, List.mem_cons_of_mem _ hq, hrest⟩
      | none =>
          rw [disconnectRooms_cons_notfound conn k us tl tr hf] at hp
          simp only at hp
          rcases List.mem_cons.1 hp with h1 | h1
          · exact ⟨(k, us), List.mem_cons_self _ _, by rw [h1],
              by rw [h1], fun c _ => by rw [h1]⟩
          · rcases ih _ p h1 with ⟨q, hq, hrest⟩
            exact ⟨q, List.mem_cons_of_mem _ hq, hrest⟩

theorem disconnectRooms_noconn (conn : String) : ∀ (rooms : RoomsT)
    (tr : TrackT),
    (∀ q ∈ rooms, (q.2.map User.id).Nodup) →
    ∀ p ∈ (disconnectRooms conn rooms tr).1, hasUser p.2 conn = false := by
  intro rooms
  induction rooms with
  | nil => intro tr _ p hp; simp [disconnectRooms] at hp
  | cons hd tl ih =>
      intro tr hund p hp
      obtain ⟨k, us⟩ := hd
      cases hf : findUser us conn with
      | some u =>
          rw [disconnectRooms_cons_found conn k us tl tr u hf] at hp
          simp only at hp
          by_cases he : (removeUser us conn).isEmpty
          · rw [if_pos he] at hp
            exact ih _ (fun q hq => hund q (List.mem_cons_of_mem _ hq)) p hp
          · rw [if_neg he] at hp
            rcases List.mem_cons.1 hp with h1 | h1
            · rw [h1]
              simp only [hasUser]
              rw [findUser_removeUser_self us conn
                (hund (k, us) (List.mem_cons_self _ _))]
              rfl
            · exact ih _ (fun q hq => hund q (List.mem_cons_of_mem _ hq)) p h1
      | none =>
          rw [disconnectRooms_cons_notfound conn k us tl tr hf] at hp
          simp only at hp
          rcases List.mem_cons.1 hp with h1 | h1
          · rw [h1]
            simp only [hasUser, hf]
            rfl
          · exact ih _ (fun q hq => hund q (List.mem_cons_of_mem _ hq)) p h1

/-! ## Invariant preservation -/

/-- Two rooms of an invariant-satisfying state that share any member id are
the same room. -/
theorem RegInv_shared_member (s : ServerState) (hInv : RegInv s)
    (r1 r2 : String × List User) (h1 : r1 ∈ s.rooms) (h2 : r2 ∈ s.rooms)
    (c : String) (hc1 : hasUser r1.2 c = true) (hc2 : hasUser r2.2 c = true) :
    r1 = r2 := by
  rcases List.mem_map.1 ((hasUser_eq_true_iff _ _).1 hc1) with ⟨u, hu, hid⟩
  exact hInv.atMostOne r1 h1 r2 h2 u hu (by rw [hid]; exact hc2)

/-- Core invariant argument for join: if the intermediate room table
`rooms2` has unique keys, every entry either empty or corresponding to an
entry of the old state (same key, ids a sublist, other members unchanged),
no entry containing the joiner, and `roomId` mapped to `U`, then the final
state after appending the joiner to `U` satisfies the invariant. -/
theorem RegInv_join_core (s : ServerState) (conn roomId uname : String)
    (rooms2 : RoomsT) (U : List User) (hInv : RegInv s)
    (k1 : (rooms2.map Prod.fst).Nodup)
    (k2 : ∀ p ∈ rooms2, p.2 = [] ∨ ∃ q ∈ s.rooms, q.1 = p.1 ∧
        (p.2.map User.id).Sublist (q.2.map User.id) ∧
        ∀ c, c ≠ conn → hasUser p.2 c = hasUser q.2 c)
    (k3 : ∀ p ∈ rooms2, hasUser p.2 conn = false)
    (k4 : lookupRoom rooms2 roomId = some U) :
    RegInv ⟨setRoom rooms2 roomId (U ++ [⟨conn, uname⟩]),
      setSock s.sockRooms conn [roomId], s.tracker⟩ := by
  have hUmem : (roomId, U) ∈ rooms2 := lookupRoom_mem rooms2 roomId U k4
  have hUc : hasUser U conn = false := k3 _ hUmem
  have hUnodup : (U.map User.id).Nodup := by
    rcases k2 _ hUmem with h | ⟨q, hq, _, hsub, _⟩
    · simp only at h
      rw [h]
      exact List.nodup_nil
    · exact hsub.nodup (hInv.usersNodup q hq)
  have hconnU : conn ∉ U.map User.id := by
    intro hmem
    rw [← hasUser_eq_true_iff] at hmem
    rw [hmem] at hUc
    exact absurd hUc (by decide)
  have husers' : ((U ++ [(⟨conn, uname⟩ : User)]).map User.id).Nodup := by
    rw [List.map_append, List.nodup_append]
    exact ⟨hUnodup, by simp, by
      intro x hx
      simp only [List.map_cons, List.map_nil, List.mem_singleton]
      intro hxc
      exact hconnU (hxc ▸ hx)⟩
  -- export of a membership of a non-joiner id to the old state
  have hexp : ∀ p ∈ rooms2, ∀ c, c ≠ conn → hasUser p.2 c = true →
      ∃ q ∈ s.rooms, q.1 = p.1 ∧ hasUser q.2 c = true := by
    intro p hp c hc hcu
    rcases k2 p hp with h | ⟨q, hq, hk, _, hother⟩
    · rw [h] at hcu
      exact absurd hcu (by simp [hasUser, findUser])
    · exact ⟨q, hq, hk, by rw [← hother c hc]; exact hcu⟩
  have hclass : ∀ p ∈ setRoom rooms2 roomId (U ++ [⟨conn, uname⟩]),
      (p ∈ rooms2 ∧ p.1 ≠ roomId) ∨ p = (roomId, U ++ [⟨conn, uname⟩]) :=
    fun p hp => mem_setRoom_nodup rooms2 roomId _ p k1 hp
  -- membership of a non-joiner id in the new room list implies membership in U
  have hmemU : ∀ c, c ≠ conn →
      hasUser (U ++ [(⟨conn, uname⟩ : User)]) c = true →
      hasUser U c = true := by
    intro c hc hcu
    rw [hasUser_eq_true_iff, List.map_append] at hcu
    rcases List.mem_append.1 hcu with h | h
    · rw [hasUser_eq_true_iff]
      exact h
    · simp only [List.map_cons, List.map_nil, List.mem_singleton] at h
      exact absurd h hc
  refine ⟨?_, ?_, ?_, ?_⟩
  · simp only
    rw [keys_setRoom]
    exact k1
  · intro p hp
    simp only at hp
    rcases hclass p hp with ⟨hp2, _⟩ | hp2
    · rcases k2 p hp2 with h | ⟨q, hq, _, hsub, _⟩
      · rw [h]
        exact List.nodup_nil
      · exact hsub.nodup (hInv.usersNodup q hq)
    · rw [hp2]
      exact husers'
  · intro p hp u hu
    simp only at hp ⊢
    rcases hclass p hp with ⟨hp2, hpne⟩ | hp2
    · have hune : u.id ≠ conn := by
        intro hid
        have := k3 p hp2
        rw [← hid, ← hasUser_eq_true_iff] at *
        have hmem : hasUser p.2 u.id = true :=
          (hasUser_eq_true_iff _ _).2 (List.mem_map.2 ⟨u, hu, rfl⟩)
        rw [hid] at hmem
        rw [hmem] at this
        exact absurd this (by decide)
      rw [getSock_setSock_ne s.sockRooms conn u.id [roomId] hune]
      have hpu : hasUser p.2 u.id = true :=
        (hasUser_eq_true_iff _ _).2 (List.mem_map.2 ⟨u, hu, rfl⟩)
      rcases hexp p hp2 u.id hune hpu with ⟨q, hq, hk, hqu⟩
      rcases List.mem_map.1 ((hasUser_eq_true_iff _ _).1 hqu) with
        ⟨u2, hu2, hid2⟩
      have := hInv.coupling q hq u2 hu2
      rw [hid2] at this
      rw [← hk]
      exact this
    · rw [hp2]
      simp only
      have humem : u ∈ U ++ [(⟨conn, uname⟩ : User)] := by
        rw [hp2] at hu
        exact hu
      rcases List.mem_append.1 humem with h | h
      · have hune : u.id ≠ conn := by
          intro hid
          exact hconnU (hid ▸ List.mem_map.2 ⟨u, h, rfl⟩)
        rw [getSock_setSock_ne s.sockRooms conn u.id [roomId] hune]
        have hpu : hasUser U u.id = true :=
          (hasUser_eq_true_iff _ _).2 (List.mem_map.2 ⟨u, h, rfl⟩)
        rcases hexp (roomId, U) hUmem u.id hune hpu with ⟨q, hq, hk, hqu⟩
        have hk2 : q.1 = roomId := hk
        rcases List.mem_map.1 ((hasUser_eq_true_iff _ _).1 hqu) with
          ⟨u2, hu2, hid2⟩
        have := hInv.coupling q hq u2 hu2
        rw [hid2] at this
        rw [← hk2]
        exact this
      · simp only [List.mem_singleton] at h
        rw [h]
        simp only
        rw [getSock_setSock_self]
        exact List.mem_singleton.2 rfl
  · intro p hp q hq u hu hqu
    simp only at hp hq
    have hkeys3 : ((setRoom rooms2 roomId
        (U ++ [(⟨conn, uname⟩ : User)])).map Prod.fst).Nodup := by
      rw [keys_setRoom]
      exact k1
    rcases hclass p hp with ⟨hp2, hpne⟩ | hp2 <;>
      rcases hclass q hq with ⟨hq2, hqne⟩ | hq2
    · -- both old entries
      have hune : u.id ≠ conn := by
        intro hid
        have h3 := k3 p hp2
        have hmem : hasUser p.2 u.id = true :=
          (hasUser_eq_true_iff _ _).2 (List.mem_map.2 ⟨u, hu, rfl⟩)
        rw [hid] at hmem
        rw [hmem] at h3
        exact absurd h3 (by decide)
      have hpu : hasUser p.2 u.id = true :=
        (hasUser_eq_true_iff _ _).2 (List.mem_map.2 ⟨u, hu, rfl⟩)
      rcases hexp p hp2 u.id hune hpu with ⟨qa, hqa, hka, hqau⟩
      rcases hexp q hq2 u.id hune hqu with ⟨qb, hqb, hkb, hqbu⟩
      have heq := RegInv_shared_member s hInv qa qb hqa hqb u.id hqau hqbu
      have hkeq : p.1 = q.1 := by rw [← hka, ← hkb, heq]
      exact eq_of_keysNodup _ p q hkeys3 hp hq hkeq
    · -- p old, q is the joined room: impossible for u ∈ p.2
      exfalso
      have hune : u.id ≠ conn := by
        intro hid
        have h3 := k3 p hp2
        have hmem : hasUser p.2 u.id = true :=
          (hasUser_eq_true_iff _ _).2 (List.mem_map.2 ⟨u, hu, rfl⟩)
        rw [hid] at hmem
        rw [hmem] at h3
        exact absurd h3 (by decide)
      have hqu2 : hasUser U u.id = true := by
        apply hmemU u.id hune
        rw [hq2] at hqu
        exact hqu
      have hpu : hasUser p.2 u.id = true :=
        (hasUser_eq_true_iff _ _).2 (List.mem_map.2 ⟨u, hu, rfl⟩)
      rcases hexp p hp2 u.id hune hpu with ⟨qa, hqa, hka, hqau⟩
      rcases hexp (roomId, U) hUmem u.id hune hqu2 with ⟨qb, hqb, hkb, hqbu⟩
      have heq := RegInv_shared_member s hInv qa qb hqa hqb u.id hqau hqbu
      apply hpne
      rw [← hka, heq, hkb]
    · -- p is the joined room, q old: impossible
      exfalso
      have hu2 : u ∈ U ++ [(⟨conn, uname⟩ : User)] := by
        rw [hp2] at hu
        exact hu
      rcases List.mem_append.1 hu2 with h | h
      · have hune : u.id ≠ conn := by
          intro hid
          exact hconnU (hid ▸ List.mem_map.2 ⟨u, h, rfl⟩)
        have hpu : hasUser U u.id = true :=
          (hasUser_eq_true_iff _ _).2 (List.mem_map.2 ⟨u, h, rfl⟩)
        rcases hexp (roomId, U) hUmem u.id hune hpu with ⟨qa, hqa, hka, hqau⟩
        rcases hexp q hq2 u.id hune hqu with ⟨qb, hqb, hkb, hqbu⟩
        have heq := RegInv_shared_member s hInv qa qb hqa hqb u.id hqau hqbu
        apply hqne
        rw [← hkb, ← heq, hka]
      · simp only [List.mem_singleton] at h
        have h3 := k3 q hq2
        rw [h] at hqu
        simp only at hqu
        rw [hqu] at h3
        exact absurd h3 (by decide)
    · rw [hp2, hq2]

/-- The join-room handler preserves the registry invariant. -/
theorem RegInv_join (s : ServerState) (conn roomId uname : String)
    (hInv : RegInv s) : RegInv (joinRoom s conn roomId uname).1 := by
  by_cases hr : roomId = ""
  · have h : (joinRoom s conn roomId uname).1 = s := by simp [joinRoom, hr]
    rw [h]
    exact hInv
  by_cases hu : uname = ""
  · have h : (joinRoom s conn roomId uname).1 = s := by
      simp [joinRoom, hr, hu]
    rw [h]
    exact hInv
  rcases hIL : implicitLeave s.rooms conn (getSock s.sockRooms conn) with
    ⟨rooms1, evs1⟩
  have hkeys1 : rooms1.map Prod.fst = s.rooms.map Prod.fst := by
    have h := keys_implicitLeave conn (getSock s.sockRooms conn) s.rooms
    rw [hIL] at h
    exact h
  have hcorr1 : ∀ p ∈ rooms1, ∃ q ∈ s.rooms, q.1 = p.1 ∧
      (p.2.map User.id).Sublist (q.2.map User.id) ∧
      ∀ c, c ≠ conn → hasUser p.2 c = hasUser q.2 c := by
    intro p hp
    exact implicitLeave_corr conn (getSock s.sockRooms conn) s.rooms p
      (by rw [hIL]; exact hp)
  have hclear1 : ∀ p ∈ rooms1, hasUser p.2 conn = false := by
    intro p hp
    by_contra hcon
    rw [Bool.not_eq_false] at hcon
    rcases hcorr1 p hp with ⟨q, hq, hk, hsub, _⟩
    have hm : conn ∈ q.2.map User.id :=
      hsub.mem ((hasUser_eq_true_iff _ _).1 hcon)
    rcases List.mem_map.1 hm with ⟨u, hu2, hid⟩
    have hcoup := hInv.coupling q hq u hu2
    rw [hid] at hcoup
    have h := implicitLeave_clears conn (getSock s.sockRooms conn) s.rooms
      hInv.keysNodup hInv.usersNodup p (by rw [hIL]; exact hp)
      (by rw [← hk]; exact hcoup)
    rw [h] at hcon
    exact absurd hcon (by decide)
  have hnd1 : (rooms1.map Prod.fst).Nodup := by
    rw [hkeys1]
    exact hInv.keysNodup
  cases hlook : lookupRoom rooms1 roomId with
  | some U =>
      have hfu : findUser U conn = none := by
        have h := hclear1 (roomId, U) (lookupRoom_mem rooms1 roomId U hlook)
        simp only [hasUser] at h
        cases hf2 : findUser U conn with
        | none => rfl
        | some v => rw [hf2] at h; simp at h
      have h_eq : (joinRoom s conn roomId uname).1 =
          ⟨setRoom rooms1 roomId (U ++ [⟨conn, uname⟩]),
           setSock s.sockRooms conn [roomId], s.tracker⟩ := by
        simp [joinRoom, hr, hu, hIL, hlook, hfu]
      rw [h_eq]
      exact RegInv_join_core s conn roomId uname rooms1 U hInv hnd1
        (fun p hp => Or.inr (hcorr1 p hp)) hclear1 hlook
  | none =>
      have hlook2 : lookupRoom (rooms1 ++ [(roomId, [])]) roomId = some [] :=
        lookupRoom_append_new rooms1 roomId [] hlook
      have h_eq : (joinRoom s conn roomId uname).1 =
          ⟨setRoom (rooms1 ++ [(roomId, [])]) roomId ([] ++ [⟨conn, uname⟩]),
           setSock s.sockRooms conn [roomId], s.tracker⟩ := by
        simp [joinRoom, hr, hu, hIL, hlook, hlook2, findUser]
      rw [h_eq]
      refine RegInv_join_core s conn roomId uname (rooms1 ++ [(roomId, [])])
        [] hInv ?_ ?_ ?_ hlook2
      · rw [List.map_append, List.nodup_append]
        refine ⟨hnd1, by simp, ?_⟩
        intro x hx
        simp only [List.map_cons, List.map_nil, List.mem_singleton]
        intro hxr
        rw [lookupRoom_eq_none_iff] at hlook
        exact hlook (hxr ▸ hx)
      · intro p hp
        rcases List.mem_append.1 hp with h | h
        · exact Or.inr (hcorr1 p h)
        · simp only [List.mem_singleton] at h
          rw [h]
          exact Or.inl rfl
      · intro p hp
        rcases List.mem_append.1 hp with h | h
        · exact hclear1 p h
        · simp only [List.mem_singleton] at h
          rw [h]
          rfl

/-- The leave-room handler preserves the registry invariant. -/
theorem RegInv_leave (s : ServerState) (conn roomId uname : String)
    (hInv : RegInv s) : RegInv (leaveRoom s conn roomId uname).1 := by
  by_cases hr : roomId = ""
  · have h : (leaveRoom s conn roomId uname).1 = s := by simp [leaveRoom, hr]
    rw [h]
    exact hInv
  by_cases hu : uname = ""
  · have h : (leaveRoom s conn roomId uname).1 = s := by
      simp [leaveRoom, hr, hu]
    rw [h]
    exact hInv
  cases hl : lookupRoom s.rooms roomId with
  | none =>
      have h : (leaveRoom s conn roomId uname).1 = s := by
        simp [leaveRoom, hr, hu, hl]
      rw [h]
      exact hInv
  | some users =>
    cases hf : findUser users conn with
    | none =>
        have h : (leaveRoom s conn roomId uname).1 = s := by
          simp [leaveRoom, hr, hu, hl, hf]
        rw [h]
        exact hInv
    | some u0 =>
      have h_eq : (leaveRoom s conn roomId uname).1 =
          ⟨(if (removeUser users conn).isEmpty then
              deleteRoom (setRoom s.rooms roomId (removeUser users conn))
                roomId
            else setRoom s.rooms roomId (removeUser users conn)),
           setSock s.sockRooms conn
             (removeFirst (getSock s.sockRooms conn) roomId),
           removeKey s.tracker (trackerKey roomId conn)⟩ := by
        simp [leaveRoom, hr, hu, hl, hf]
      rw [h_eq]
      have hmem0 : (roomId, users) ∈ s.rooms :=
        lookupRoom_mem s.rooms roomId users hl
      have hund0 : (users.map User.id).Nodup := hInv.usersNodup _ hmem0
      have hkeys1 : ((setRoom s.rooms roomId
          (removeUser users conn)).map Prod.fst).Nodup := by
        rw [keys_setRoom]
        exact hInv.keysNodup
      have hclass2 : ∀ p, p ∈ (if (removeUser users conn).isEmpty then
          deleteRoom (setRoom s.rooms roomId (removeUser users conn)) roomId
          else setRoom s.rooms roomId (removeUser users conn)) →
          (p ∈ s.rooms ∧ p.1 ≠ roomId) ∨
            p = (roomId, removeUser users conn) := by
        intro p hp
        split at hp
        · exact mem_setRoom_nodup s.rooms roomId _ p hInv.keysNodup
            (mem_deleteRoom _ roomId p hp)
        · exact mem_setRoom_nodup s.rooms roomId _ p hInv.keysNodup hp
      have hkeys2 : ((if (removeUser users conn).isEmpty then
          deleteRoom (setRoom s.rooms roomId (removeUser users conn)) roomId
          else setRoom s.rooms roomId
            (removeUser users conn)).map Prod.fst).Nodup := by
        split
        · exact (keys_deleteRoom_sublist _ roomId).nodup hkeys1
        · exact hkeys1
      have hexp2 : ∀ p, (p ∈ s.rooms ∧ p.1 ≠ roomId) ∨
          p = (roomId, removeUser users conn) → ∀ c,
          hasUser p.2 c = true → ∃ q ∈ s.rooms, q.1 = p.1 ∧
            hasUser q.2 c = true := by
        intro p hp c hc
        rcases hp with ⟨hp2, _⟩ | hp2
        · exact ⟨p, hp2, rfl, hc⟩
        · refine ⟨(roomId, users), hmem0, by rw [hp2], ?_⟩
          rw [hp2] at hc
          exact hasUser_of_removeUser users conn c hc
      refine ⟨hkeys2, ?_, ?_, ?_⟩
      · intro p hp
        rcases hclass2 p hp with ⟨hp2, _⟩ | hp2
        · exact hInv.usersNodup p hp2
        · rw [hp2]
          exact (ids_removeUser_sublist users conn).nodup hund0
      · intro p hp v hv
        simp only
        rcases hclass2 p hp with ⟨hp2, hpne⟩ | hp2
        · by_cases hvc : v.id = conn
          · rw [hvc, getSock_setSock_self]
            have hcoup := hInv.coupling p hp2 v hv
            rw [hvc] at hcoup
            exact mem_removeFirst_of_ne _ _ _ hcoup hpne
          · rw [getSock_setSock_ne s.sockRooms conn v.id _ hvc]
            exact hInv.coupling p hp2 v hv
        · have hv2 : v ∈ removeUser users conn := by
            rw [hp2] at hv
            exact hv
          have hvc : v.id ≠ conn := by
            intro hid
            have h1 := findUser_removeUser_self users conn hund0
            rw [findUser_eq_none_iff] at h1
            exact h1 (List.mem_map.2 ⟨v, hv2, hid⟩)
          rw [getSock_setSock_ne s.sockRooms conn v.id _ hvc]
          have hcoup := hInv.coupling (roomId, users) hmem0 v
            (mem_removeUser users conn v hv2)
          rw [hp2]
          exact hcoup
      · intro p hp q hq v hv hqv
        have hpu : hasUser p.2 v.id = true :=
          (hasUser_eq_true_iff _ _).2 (List.mem_map.2 ⟨v, hv, rfl⟩)
        rcases hexp2 p (hclass2 p hp) v.id hpu with ⟨qa, hqa, hka, hqau⟩
        rcases hexp2 q (hclass2 q hq) v.id hqv with ⟨qb, hqb, hkb, hqbu⟩
        have heq := RegInv_shared_member s hInv qa qb hqa hqb v.id hqau hqbu
        have hkeq : p.1 = q.1 := by rw [← hka, ← hkb, heq]
        exact eq_of_keysNodup _ p q hkeys2 hp hq hkeq

/-- The disconnect handler preserves the registry invariant. -/
theorem RegInv_disc (s : ServerState) (conn : String) (hInv : RegInv s) :
    RegInv (disconnect s conn).1 := by
  rcases hD : disconnectRooms conn s.rooms s.tracker with ⟨rooms', tr', evs⟩
  have h_eq : (disconnect s conn).1 =
      ⟨rooms', deleteSock s.sockRooms conn, tr'⟩ := by
    simp [disconnect, hD]
  rw [h_eq]
  have hkeys : (rooms'.map Prod.fst).Nodup := by
    have h := disconnectRooms_keys_sublist conn s.rooms s.tracker
    rw [hD] at h
    exact h.nodup hInv.keysNodup
  have hcorr : ∀ p ∈ rooms', ∃ q ∈ s.rooms, q.1 = p.1 ∧
      (p.2.map User.id).Sublist (q.2.map User.id) ∧
      ∀ c, c ≠ conn → hasUser p.2 c = hasUser q.2 c := by
    intro p hp
    exact disconnectRooms_corr conn s.rooms s.tracker p (by rw [hD]; exact hp)
  have hnoconn : ∀ p ∈ rooms', hasUser p.2 conn = false := by
    intro p hp
    exact disconnectRooms_noconn conn s.rooms s.tracker hInv.usersNodup p
      (by rw [hD]; exact hp)
  refine ⟨hkeys, ?_, ?_, ?_⟩
  · intro p hp
    rcases hcorr p hp with ⟨q, hq, _, hsub, _⟩
    exact hsub.nodup (hInv.usersNodup q hq)
  · intro p hp v hv
    simp only
    have hvc : v.id ≠ conn := by
      intro hid
      have h3 := hnoconn p hp
      have hmem : hasUser p.2 v.id = true :=
        (hasUser_eq_true_iff _ _).2 (List.mem_map.2 ⟨v, hv, rfl⟩)
      rw [hid] at hmem
      rw [hmem] at h3
      exact absurd h3 (by decide)
    rw [getSock_deleteSock_ne s.sockRooms conn v.id hvc]
    rcases hcorr p hp with ⟨q, hq, hk, _, hother⟩
    have hpu : hasUser p.2 v.id = true :=
      (hasUser_eq_true_iff _ _).2 (List.mem_map.2 ⟨v, hv, rfl⟩)
    have hqv : hasUser q.2 v.id = true := by
      rw [← hother v.id hvc]
      exact hpu
    rcases List.mem_map.1 ((hasUser_eq_true_iff _ _).1 hqv) with
      ⟨v2, hv2, hid2⟩
    have hcoup := hInv.coupling q hq v2 hv2
    rw [hid2] at hcoup
    rw [← hk]
    exact hcoup
  · intro p hp q hq v hv hqv
    have hvc : v.id ≠ conn := by
      intro hid
      have h3 := hnoconn p hp
      have hmem : hasUser p.2 v.id = true :=
        (hasUser_eq_true_iff _ _).2 (List.mem_map.2 ⟨v, hv, rfl⟩)
      rw [hid] at hmem
      rw [hmem] at h3
      exact absurd h3 (by decide)
    have hpu : hasUser p.2 v.id = true :=
      (hasUser_eq_true_iff _ _).2 (List.mem_map.2 ⟨v, hv, rfl⟩)
    rcases hcorr p hp with ⟨qa, hqa, hka, _, hoa⟩
    rcases hcorr q hq with ⟨qb, hqb, hkb, _, hob⟩
    have hqau : hasUser qa.2 v.id = true := by
      rw [← hoa v.id hvc]
      exact hpu
    have hqbu : hasUser qb.2 v.id = true := by
      rw [← hob v.id hvc]
      exact hqv
    have heq := RegInv_shared_member s hInv qa qb hqa hqb v.id hqau hqbu
    have hkeq : p.1 = q.1 := by rw [← hka, ← hkb, heq]
    exact eq_of_keysNodup _ p q hkeys hp hq hkeq

theorem RegInv_applyOp (s : ServerState) (op : RegOp) (hInv : RegInv s) :
    RegInv (applyOp s op) := by
  cases op with
  | join c r n => exact RegInv_join s c r n hInv
  | leave c r n => exact RegInv_leave s c r n hInv
  | disc c => exact RegInv_disc s c hInv

theorem RegInv_initial : RegInv initialState := by
  refine ⟨?_, ?_, ?_, ?_⟩ <;> simp [initialState]

theorem RegInv_runOps (ops : List RegOp) : RegInv (runOps ops) := by
  have h : ∀ (l : List RegOp) (s : ServerState), RegInv s →
      RegInv (List.foldl applyOp s l) := by
    intro l
    induction l with
    | nil => intro s hs; exact hs
    | cons op rest ih =>
        intro s hs
        exact ih (applyOp s op) (RegInv_applyOp s op hs)
  exact h ops initialState RegInv_initial

/-- A valid join leaves the joiner in no room other than the target. -/
theorem join_clears_elsewhere (s : ServerState) (conn roomId uname : String)
    (hInv : RegInv s) (hr : roomId ≠ "") (hu : uname ≠ "") :
    ∀ p ∈ (joinRoom s conn roomId uname).1.rooms, p.1 ≠ roomId →
      hasUser p.2 conn = false := by
  rcases hIL : implicitLeave s.rooms conn (getSock s.sockRooms conn) with
    ⟨rooms1, evs1⟩
  have hcorr1 : ∀ p ∈ rooms1, ∃ q ∈ s.rooms, q.1 = p.1 ∧
      (p.2.map User.id).Sublist (q.2.map User.id) ∧
      ∀ c, c ≠ conn → hasUser p.2 c = hasUser q.2 c := by
    intro p hp
    exact implicitLeave_corr conn (getSock s.sockRooms conn) s.rooms p
      (by rw [hIL]; exact hp)
  have hclear1 : ∀ p ∈ rooms1, hasUser p.2 conn = false := by
    intro p hp
    by_contra hcon
    rw [Bool.not_eq_false] at hcon
    rcases hcorr1 p hp with ⟨q, hq, hk, hsub, _⟩
    have hm : conn ∈ q.2.map User.id :=
      hsub.mem ((hasUser_eq_true_iff _ _).1 hcon)
    rcases List.mem_map.1 hm with ⟨u, hu2, hid⟩
    have hcoup := hInv.coupling q hq u hu2
    rw [hid] at hcoup
    have h := implicitLeave_clears conn (getSock s.sockRooms conn) s.rooms
      hInv.keysNodup hInv.usersNodup p (by rw [hIL]; exact hp)
      (by rw [← hk]; exact hcoup)
    rw [h] at hcon
    exact absurd hcon (by decide)
  have hkeys1 : rooms1.map Prod.fst = s.rooms.map Prod.fst := by
    have h := keys_implicitLeave conn (getSock s.sockRooms conn) s.rooms
    rw [hIL] at h
    exact h
  have hnd1 : (rooms1.map Prod.fst).Nodup := by
    rw [hkeys1]
    exact hInv.keysNodup
  cases hlook : lookupRoom rooms1 roomId with
  | some U =>
      have hfu : findUser U conn = none := by
        have h := hclear1 (roomId, U) (lookupRoom_mem rooms1 roomId U hlook)
        simp only [hasUser] at h
        cases hf2 : findUser U conn with
        | none => rfl
        | some v => rw [hf2] at h; simp at h
      have h_eq : (joinRoom s conn roomId uname).1 =
          ⟨setRoom rooms1 roomId (U ++ [⟨conn, uname⟩]),
           setSock s.sockRooms conn [roomId], s.tracker⟩ := by
        simp [joinRoom, hr, hu, hIL, hlook, hfu]
      rw [h_eq]
      intro p hp hpne
      rcases mem_setRoom_nodup rooms1 roomId _ p hnd1 hp with ⟨hp2, _⟩ | hp2
      · exact hclear1 p hp2
      · rw [hp2] at hpne
        exact absurd rfl hpne
  | none =>
      have hlook2 : lookupRoom (rooms1 ++ [(roomId, [])]) roomId = some [] :=
        lookupRoom_append_new rooms1 roomId [] hlook
      have hnd2 : ((rooms1 ++ [(roomId, [])]).map Prod.fst).Nodup := by
        rw [List.map_append, List.nodup_append]
        refine ⟨hnd1, by simp, ?_⟩
        intro x hx
        simp only [List.map_cons, List.map_nil, List.mem_singleton]
        intro hxr
        rw [lookupRoom_eq_none_iff] at hlook
        exact hlook (hxr ▸ hx)
      have h_eq : (joinRoom s conn roomId uname).1 =
          ⟨setRoom (rooms1 ++ [(roomId, [])]) roomId ([] ++ [⟨conn, uname⟩]),
           setSock s.sockRooms conn [roomId], s.tracker⟩ := by
        simp [joinRoom, hr, hu, hIL, hlook, hlook2, findUser]
      rw [h_eq]
      intro p hp hpne
      rcases mem_setRoom_nodup (rooms1 ++ [(roomId, [])]) roomId _ p hnd2 hp
        with ⟨hp2, _⟩ | hp2
      · rcases List.mem_append.1 hp2 with h | h
        · exact hclear1 p h
        · simp only [List.mem_singleton] at h
          rw [h] at hpne
          exact absurd rfl hpne
      · rw [hp2] at hpne
        exact absurd rfl hpne

/-- A valid join broadcasts `user-left` to every room the joiner was in. -/
theorem join_emits_leave (s : ServerState) (conn roomId uname r : String)
    (users : List User) (hInv : RegInv s) (hr : roomId ≠ "") (hu : uname ≠ "")
    (hmem : (r, users) ∈ s.rooms) (hhas : hasUser users conn = true) :
    SEvent.userLeft r conn none (removeUser users conn) ∈
      (joinRoom s conn roomId uname).2 := by
  have hl : lookupRoom s.rooms r = some users :=
    mem_lookupRoom s.rooms (r, users) hInv.keysNodup hmem
  rcases List.mem_map.1 ((hasUser_eq_true_iff _ _).1 hhas) with ⟨u, hu2, hid⟩
  have hsock : r ∈ getSock s.sockRooms conn := by
    have h := hInv.coupling (r, users) hmem u hu2
    rw [hid] at h
    exact h
  rcases hIL : implicitLeave s.rooms conn (getSock s.sockRooms conn) with
    ⟨rooms1, evs1⟩
  have hev : SEvent.userLeft r conn none (removeUser users conn) ∈ evs1 := by
    have h := implicitLeave_emits conn r users (getSock s.sockRooms conn)
      s.rooms hsock hl hhas
    rw [hIL] at h
    exact h
  cases hlook : lookupRoom rooms1 roomId with
  | some U =>
      cases hfu : findUser U conn with
      | none =>
          have h_eq : (joinRoom s conn roomId uname).2 =
              evs1 ++ [SEvent.userJoined roomId ⟨conn, uname⟩
                  (U ++ [⟨conn, uname⟩]),
                SEvent.joinSuccess conn roomId ⟨conn, uname⟩
                  (U ++ [⟨conn, uname⟩])] := by
            simp [joinRoom, hr, hu, hIL, hlook, hfu]
          rw [h_eq]
          exact List.mem_append_left _ hev
      | some u1 =>
          have h_eq : (joinRoom s conn roomId uname).2 =
              evs1 ++ [SEvent.userJoined roomId ⟨conn, uname⟩
                  (setUserName U conn uname),
                SEvent.joinSuccess conn roomId ⟨conn, uname⟩
                  (setUserName U conn uname)] := by
            simp [joinRoom, hr, hu, hIL, hlook, hfu]
          rw [h_eq]
          exact List.mem_append_left _ hev
  | none =>
      have hlook2 : lookupRoom (rooms1 ++ [(roomId, [])]) roomId = some [] :=
        lookupRoom_append_new rooms1 roomId [] hlook
      have h_eq : (joinRoom s conn roomId uname).2 =
          evs1 ++ [SEvent.userJoined roomId ⟨conn, uname⟩ ([] ++ [⟨conn, uname⟩]),
            SEvent.joinSuccess conn roomId ⟨conn, uname⟩
              ([] ++ [⟨conn, uname⟩])] := by
        simp [joinRoom, hr, hu, hIL, hlook, hlook2, findUser]
      rw [h_eq]
      exact List.mem_append_left _ hev

/-! ## C5: a member id lives in at most one room -/

/-- C5: over every sequence of registry operations (join-room, leave-room,
disconnect) from the empty initial state, a connection id appears in at
most one room's member list at every point in time — any two rooms of the
reached state that share a member id are the same room.  Moreover, joining
a new room first removes the member from any other room it was in and
notifies that room: a valid join by a member of a different room emits the
`user-left` broadcast for the old room and leaves the member in no room
other than the join target. -/
theorem member_in_at_most_one_room :
    (∀ ops : List RegOp, ∀ p q : String × List User,
       p ∈ (runOps ops).rooms → q ∈ (runOps ops).rooms →
       ∀ u : User, u ∈ p.2 → hasUser q.2 u.id = true → p = q) ∧
    (∀ s : ServerState, ∀ conn roomId uname r : String, ∀ users : List User,
       RegInv s → roomId ≠ "" → uname ≠ "" →
       (r, users) ∈ s.rooms → hasUser users conn = true → r ≠ roomId →
       (SEvent.userLeft r conn none (removeUser users conn) ∈
          (joinRoom s conn roomId uname).2 ∧
        ∀ p ∈ (joinRoom s conn roomId uname).1.rooms, p.1 ≠ roomId →
          hasUser p.2 conn = false)) := by
  constructor
  · intro ops p q hp hq u hu hqu
    exact (RegInv_runOps ops).atMostOne p hp q hq u hu hqu
  · intro s conn roomId uname r users hInv hr hu hmem hhas _
    exact ⟨join_emits_leave s conn roomId uname r users hInv hr hu hmem hhas,
      join_clears_elsewhere s conn roomId uname hInv hr hu⟩

/-- Witness for C5: after `"a"` joins `"R"` and then `"S"`, the only room
containing `"a"` is `"S"`; and a concrete join of `"R"` by the sole member
of `"T"` broadcasts `user-left` for `"T"` and leaves `"a"` nowhere but
`"R"`. -/
theorem member_in_at_most_one_room_witness :
    ("S", [(⟨"a", "Al"⟩ : User)]) = ("S", [(⟨"a", "Al"⟩ : User)]) ∧
    (SEvent.userLeft "T" "a" none (removeUser [⟨"a", "Al"⟩] "a") ∈
        (joinRoom ⟨[("T", [⟨"a", "Al"⟩])], [("a", ["T"])], []⟩
          "a" "R" "Al").2 ∧
     ∀ p ∈ (joinRoom ⟨[("T", [⟨"a", "Al"⟩])], [("a", ["T"])], []⟩
         "a" "R" "Al").1.rooms, p.1 ≠ "R" → hasUser p.2 "a" = false) := by
  have h := member_in_at_most_one_room
  refine ⟨?_, ?_⟩
  · exact h.1 [.join "a" "R" "Al", .join "a" "S" "Al"]
      ("S", [⟨"a", "Al"⟩]) ("S", [⟨"a", "Al"⟩]) (by decide) (by decide)
      ⟨"a", "Al"⟩ (by decide) (by decide)
  · exact h.2 ⟨[("T", [⟨"a", "Al"⟩])], [("a", ["T"])], []⟩ "a" "R" "Al" "T"
      [⟨"a", "Al"⟩] ⟨by decide, by decide, by decide, by decide⟩
      (by decide) (by decide) (by decide) rfl (by decide)
